import Mathlib

/-!
# UART transport of the MSP430 / CC2500 firmware (`lib/uart.c`)

A shallow embedding of the transmit routines (`uart_put_char`, `uart_write`,
`uart_write_escaped`), the receive callback slot (`setup_uart_callback`,
`dummy_callback`), the receive interrupt service routine (`uart_rx_isr`) and
the debug helper `hex_to_string`, followed by the properties proved about them.

Conventions of the embedding

* Machine integers are natural numbers; a value stored in an 8-bit object is
  reduced modulo `256`, a `uint16_t` modulo `65536`.
* The peripheral registers are `volatile`.  `IFG2` and `UCA0RXBUF` are input
  streams: the value at index `0` is what the next read returns, and a read
  consumes it.  `UCA0TXBUF` is the list of all bytes stored to the transmit
  register, oldest first.
* A loop whose exit depends on the hardware (the transmit-ready busy wait) or
  on a counter takes a bound on its number of iterations and returns `none`
  when the bound is exhausted.
-/

namespace Uart

/-- Constants that `uart.c` takes from `uart.h` (`SYNC_BYTE`, `ESCAPE_BYTE`) and
from the device header (`UCA0RXIFG`, `UCA0TXIFG`, `UCB0RXIFG`, `LPM1_bits`).
Neither header is part of the sources, so the values are parameters. -/
structure Consts where
  SYNC_BYTE : Nat
  ESCAPE_BYTE : Nat
  UCA0RXIFG : Nat
  UCA0TXIFG : Nat
  UCB0RXIFG : Nat
  LPM1_bits : Nat

/-- A value of type `uint8_t (*)(uint8_t)`: either the address of the static
function `dummy_callback` of `uart.c`, or the address of a function of the
application. -/
inductive FnPtr where
  | dummy_callback : FnPtr
  | user (addr : Nat) : FnPtr
deriving DecidableEq

/-- The state the program can observe or change. -/
structure Machine where
  /-- The static variable `uart_rx_callback`. -/
  uart_rx_callback : FnPtr
  /-- Data memory, one byte per address. -/
  mem : Nat → Nat
  /-- Values the coming reads of the flag register `IFG2` return. -/
  IFG2 : Nat → Nat
  /-- Values the coming reads of the receive register `UCA0RXBUF` return. -/
  UCA0RXBUF : Nat → Nat
  /-- Bytes stored to the transmit register `UCA0TXBUF`, oldest first. -/
  UCA0TXBUF : List Nat

/-- The state at program start: `uart_rx_callback = dummy_callback` (line 11),
nothing transmitted yet. -/
def Machine.init (mem IFG2 UCA0RXBUF : Nat → Nat) : Machine :=
  { uart_rx_callback := FnPtr.dummy_callback, mem := mem, IFG2 := IFG2,
    UCA0RXBUF := UCA0RXBUF, UCA0TXBUF := [] }

/-- Read of a `uint8_t` object at address `a`. -/
def load8 (s : Machine) (a : Nat) : Nat := s.mem a % 256

/-- One read of the volatile register `IFG2`. -/
def read_IFG2 (s : Machine) : Nat × Machine :=
  (s.IFG2 0 % 256, { s with IFG2 := fun k => s.IFG2 (k + 1) })

/-- One read of the volatile register `UCA0RXBUF`. -/
def read_UCA0RXBUF (s : Machine) : Nat × Machine :=
  (s.UCA0RXBUF 0 % 256, { s with UCA0RXBUF := fun k => s.UCA0RXBUF (k + 1) })

/-- The store `UCA0TXBUF = v`. -/
def write_UCA0TXBUF (v : Nat) (s : Machine) : Machine :=
  { s with UCA0TXBUF := s.UCA0TXBUF ++ [v % 256] }

/-- The busy wait `while (!(IFG2&UCA0TXIFG));`, at most `fuel` reads of `IFG2`. -/
def tx_ready_wait (c : Consts) : Nat → Machine → Option Machine
  | 0, _ => none
  | fuel + 1, s =>
    if (read_IFG2 s).1 &&& c.UCA0TXIFG = 0 then tx_ready_wait c fuel (read_IFG2 s).2
    else some (read_IFG2 s).2

/-- The function `uart_put_char` (lines 50-54). -/
def uart_put_char (c : Consts) (fuel : Nat) (character : Nat) (s : Machine) :
    Option Machine :=
  match tx_ready_wait c fuel s with
  | none => none
  | some s1 => some (write_UCA0TXBUF (character % 256) s1)

/-- The function `setup_uart_callback` (lines 62-65). -/
def setup_uart_callback (callback : FnPtr) (s : Machine) : Machine :=
  { s with uart_rx_callback := callback }

/-- The `for` loop of `uart_write` (lines 75-81) from the test of its condition
with the counter at `buffer_index`; at most `n` tests, each busy wait at most
`fuel` reads. -/
def uart_write_loop (c : Consts) (fuel buffer length : Nat) :
    Nat → Nat → Machine → Option Machine
  | 0, _, _ => none
  | n + 1, buffer_index, s =>
    if buffer_index < length then
      match tx_ready_wait c fuel s with
      | none => none
      | some s1 =>
        uart_write_loop c fuel buffer length n ((buffer_index + 1) % 65536)
          (write_UCA0TXBUF (load8 s1 (buffer + buffer_index)) s1)
    else some s

/-- The function `uart_write` (lines 71-82); `length` is a `uint16_t`. -/
def uart_write (c : Consts) (fuel buffer length : Nat) (s : Machine) : Option Machine :=
  uart_write_loop c fuel buffer (length % 65536) fuel 0 s

/-- The value of the C expression `a == b`. -/
def c_eq (a b : Nat) : Nat := if a = b then 1 else 0

/-- The `for` loop of `uart_write_escaped` (lines 95-111) from the test of its
condition with the counter at `buffer_index`; at most `n` tests, each busy wait
at most `fuel` reads. -/
def uart_write_escaped_loop (c : Consts) (fuel buffer length : Nat) :
    Nat → Nat → Machine → Option Machine
  | 0, _, _ => none
  | n + 1, buffer_index, s =>
    if buffer_index < length then
      if c_eq (load8 s (buffer + buffer_index)) c.SYNC_BYTE |||
          c_eq (load8 s (buffer + buffer_index)) c.ESCAPE_BYTE ≠ 0 then
        match tx_ready_wait c fuel s with
        | none => none
        | some s1 =>
          match tx_ready_wait c fuel (write_UCA0TXBUF c.ESCAPE_BYTE s1) with
          | none => none
          | some s2 =>
            uart_write_escaped_loop c fuel buffer length n ((buffer_index + 1) % 65536)
              (write_UCA0TXBUF (load8 s2 (buffer + buffer_index) ^^^ 0x20) s2)
      else
        match tx_ready_wait c fuel s with
        | none => none
        | some s1 =>
          uart_write_escaped_loop c fuel buffer length n ((buffer_index + 1) % 65536)
            (write_UCA0TXBUF (load8 s1 (buffer + buffer_index)) s1)
    else some s

/-- The function `uart_write_escaped` (lines 88-116); `length` is a `uint16_t`. -/
def uart_write_escaped (c : Consts) (fuel buffer length : Nat) (s : Machine) :
    Option Machine :=
  match tx_ready_wait c fuel s with
  | none => none
  | some s1 =>
    match uart_write_escaped_loop c fuel buffer (length % 65536) fuel 0
        (write_UCA0TXBUF c.SYNC_BYTE s1) with
    | none => none
    | some s2 =>
      match tx_ready_wait c fuel s2 with
      | none => none
      | some s3 => some (write_UCA0TXBUF c.SYNC_BYTE s3)

/-- The code behind a pointer of type `uint8_t (*)(uint8_t)`: from the argument
and the machine state to the returned value and the machine state on return. -/
abbrev Handler := Nat → Machine → Nat × Machine

/-- The function `dummy_callback` (lines 122-127). -/
def dummy_callback (_rx_char : Nat) (s : Machine) : Nat × Machine := (0, s)

/-- The code a function pointer designates; `app` is the code of the
application, by address. -/
def call_handler (app : Nat → Handler) : FnPtr → Handler
  | FnPtr.dummy_callback => dummy_callback
  | FnPtr.user addr => app addr

/-- What the interrupt service routine does that is not a change of the machine
state: a read of the receive register and the value read, a call through the
callback slot and its argument, a call of `__bic_SR_register_on_exit` and its
argument (the request to leave the low-power mode on return). -/
inductive Event where
  | rx_read (value : Nat) : Event
  | call (f : FnPtr) (arg : Nat) : Event
  | wake (bits : Nat) : Event
deriving DecidableEq

/-- The machine together with the record of the service routine's actions.
Handlers see the machine only. -/
structure Sys where
  m : Machine
  trace : List Event

/-- The interrupt service routine `uart_rx_isr` (lines 135-152). -/
def uart_rx_isr (c : Consts) (app : Nat → Handler) (s : Sys) : Sys :=
  if (read_IFG2 s.m).1 &&& c.UCA0RXIFG ≠ 0 then
    let rx := read_UCA0RXBUF (read_IFG2 s.m).2
    let f := rx.2.uart_rx_callback
    let r := call_handler app f rx.1 rx.2
    if r.1 % 256 ≠ 0 then
      { m := r.2,
        trace := s.trace ++ [Event.rx_read rx.1, Event.call f rx.1, Event.wake c.LPM1_bits] }
    else
      { m := r.2, trace := s.trace ++ [Event.rx_read rx.1, Event.call f rx.1] }
  else
    if (read_IFG2 (read_IFG2 s.m).2).1 &&& c.UCB0RXIFG ≠ 0 then
      { m := (read_IFG2 (read_IFG2 s.m).2).2, trace := s.trace }
    else
      { m := (read_IFG2 (read_IFG2 s.m).2).2, trace := s.trace }

/-- A call of `setup_uart_callback` by the main program. -/
def Sys.register (callback : FnPtr) (s : Sys) : Sys :=
  { s with m := setup_uart_callback callback s.m }

/-- The service routine run for `n` interrupts in a row. -/
def rx_isr_run (c : Consts) (app : Nat → Handler) : Nat → Sys → Sys
  | 0, s => s
  | n + 1, s => rx_isr_run c app n (uart_rx_isr c app s)

/-- The `n` bytes of memory from address `a` on, as `uint8_t` values: the
contents of a buffer `(uint8_t*) a` of length `n`. -/
def buffer_bytes (s : Machine) : Nat → Nat → List Nat
  | _, 0 => []
  | a, n + 1 => load8 s a :: buffer_bytes s (a + 1) n

/-- The per-byte transform of the framing contract: a byte equal to `SYNC` or to
`ESCAPE` becomes `ESCAPE` followed by the byte xor `0x20`, any other byte is
kept. -/
def escape_transform (c : Consts) (b : Nat) : List Nat :=
  if b = c.SYNC_BYTE ∨ b = c.ESCAPE_BYTE then [c.ESCAPE_BYTE, b ^^^ 0x20] else [b]

/-- The transformed payload: the transforms of the bytes, in order. -/
def escape_payload (c : Consts) : List Nat → List Nat
  | [] => []
  | b :: bs => escape_transform c b ++ escape_payload c bs

/-- The frame of the wire format: `SYNC`, the transformed payload, `SYNC`. -/
def frame (c : Consts) (B : List Nat) : List Nat :=
  c.SYNC_BYTE :: (escape_payload c B ++ [c.SYNC_BYTE])

/-- The machine `s` after `k` more reads of `IFG2` and after the bytes `out`
were stored to the transmit register; every other component is that of `s`. -/
def Machine.after (s : Machine) (k : Nat) (out : List Nat) : Machine :=
  { s with IFG2 := fun j => s.IFG2 (j + k), UCA0TXBUF := s.UCA0TXBUF ++ out }

/-- The transmitter becomes ready again and again: after any number of reads of
`IFG2`, some later read finds `UCA0TXIFG` set. -/
def TxReady (c : Consts) (s : Machine) : Prop :=
  ∀ k, ∃ j, k ≤ j ∧ (s.IFG2 j % 256) &&& c.UCA0TXIFG ≠ 0

/-- Modelled from the spec: the inverse of the escape transform, applied by the
receiver, which is not part of this repository.  A pair `ESCAPE`, `X` becomes the
single byte `X xor 0x20`; every other byte is copied unchanged. -/
def spec_unescape (c : Consts) : List Nat → List Nat
  | [] => []
  | [b] => [b]
  | b :: x :: rest =>
    if b = c.ESCAPE_BYTE then (x ^^^ 0x20) :: spec_unescape c rest
    else b :: spec_unescape c (x :: rest)

/-- Modelled from the spec: the receiver's `decode`, which is not part of this
repository: strip the first and the last byte (the `SYNC` delimiters), then
reverse the escape transform. -/
def spec_decode (c : Consts) (f : List Nat) : List Nat :=
  spec_unescape c f.tail.dropLast

/-- Example values of the constants: `0x7E` and `0x7D` for the two reserved
bytes, and the bit masks of the MSP430G2533 device header. -/
def demo_consts : Consts :=
  { SYNC_BYTE := 0x7E, ESCAPE_BYTE := 0x7D, UCA0RXIFG := 0x01, UCA0TXIFG := 0x02,
    UCB0RXIFG := 0x04, LPM1_bits := 0x50 }

/-- Example machine: the bytes `data` in memory from address `0`, a transmitter
that is ready at every second read of `IFG2`, the callback slot as initialised. -/
def demo_machine (data : List Nat) : Machine :=
  Machine.init (fun a => data.getD a 0) (fun k => if k % 2 = 1 then 0x02 else 0x00)
    (fun _ => 0)

/-- The machine as the handler finds it when the service routine calls it: one
read of `IFG2` and one read of `UCA0RXBUF` after the entry state `m`. -/
def handler_entry (m : Machine) : Machine :=
  (read_UCA0RXBUF (read_IFG2 m).2).2

/-- The byte in the receive register at the entry of each of `n` interrupts in
a row. -/
def rx_pending (c : Consts) (app : Nat → Handler) : Nat → Sys → List Nat
  | 0, _ => []
  | n + 1, s => (s.m.UCA0RXBUF 0 % 256) :: rx_pending c app n (uart_rx_isr c app s)

/-- Each of `n` interrupts in a row is a receive event: the service routine
finds `UCA0RXIFG` set in `IFG2`. -/
def rx_ready_run (c : Consts) (app : Nat → Handler) : Nat → Sys → Bool
  | 0, _ => true
  | n + 1, s =>
    decide ((s.m.IFG2 0 % 256) &&& c.UCA0RXIFG ≠ 0) && rx_ready_run c app n (uart_rx_isr c app s)

/-- The calls recorded in a trace, in order: the function called and its
argument. -/
def calls_of : List Event → List (FnPtr × Nat)
  | [] => []
  | Event.call f arg :: t => (f, arg) :: calls_of t
  | Event.rx_read _ :: t => calls_of t
  | Event.wake _ :: t => calls_of t

/-- Example application code.  Address `1`: a handler that returns `1` for an
odd byte and `0` for an even one.  Address `2`: a handler that calls
`setup_uart_callback` with the handler at address `1` and returns `0`.  Any
other address: a handler that returns `0`. -/
def demo_app : Nat → Handler
  | 1 => fun rx_char s => (rx_char % 2, s)
  | 2 => fun _ s => (0, setup_uart_callback (FnPtr.user 1) s)
  | _ => fun _ s => (0, s)

/-- Example system: the callback slot as initialised, an empty trace, every
read of `IFG2` returning `ifg`, the reads of `UCA0RXBUF` returning the bytes
`rx` in order. -/
def demo_sys (ifg : Nat) (rx : List Nat) : Sys :=
  { m := Machine.init (fun _ => 0) (fun _ => ifg) (fun k => rx.getD k 0), trace := [] }

/-- The table `hex_char` of `hex_to_string` (lines 181-182): the characters
`'0'` to `'9'` and `'a'` to `'f'`. -/
def hex_char : List Nat :=
  [0x30, 0x31, 0x32, 0x33, 0x34, 0x35, 0x36, 0x37, 0x38, 0x39, 0x61, 0x62, 0x63, 0x64, 0x65, 0x66]

/-- Store of a `uint8_t` value at address `a`. -/
def store8 (s : Machine) (a v : Nat) : Machine :=
  { s with mem := fun x => if x = a then v % 256 else s.mem x }

/-- The `while` loop of `hex_to_string` (lines 185-191) from the test of its
condition, with the `uint8_t` variable `counter` as it is then; at most `fuel`
tests.  `buffer_out` and `buffer_in` are addresses into the one memory, so a
store through `buffer_out` is seen by a later read through `buffer_in`;
`buffer_in_size * 2` is computed in `int`.  The result is the final `counter`
and the machine. -/
def hex_to_string_loop (buffer_out buffer_in buffer_in_size : Nat) :
    Nat → Nat → Machine → Option (Nat × Machine)
  | 0, _, _ => none
  | fuel + 1, counter, s =>
    if counter < buffer_in_size * 2 then
      hex_to_string_loop buffer_out buffer_in buffer_in_size fuel
        (((counter + 1) % 256 + 1) % 256)
        (store8
          (store8 s (buffer_out + counter)
            (hex_char.getD ((load8 s (buffer_in + (counter >>> 1)) >>> 4) &&& 0xF) 0))
          (buffer_out + (counter + 1) % 256)
          (hex_char.getD
            (load8
              (store8 s (buffer_out + counter)
                (hex_char.getD ((load8 s (buffer_in + (counter >>> 1)) >>> 4) &&& 0xF) 0))
              (buffer_in + (((counter + 1) % 256) >>> 1)) &&& 0xF) 0))
    else some (counter, s)

/-- The function `hex_to_string` (lines 178-197); `buffer_in_size` is a
`uint8_t`.  The result is the returned value and the machine on return. -/
def hex_to_string (fuel buffer_out buffer_in buffer_in_size : Nat) (s : Machine) :
    Option (Nat × Machine) :=
  match hex_to_string_loop buffer_out buffer_in (buffer_in_size % 256) fuel 0 s with
  | none => none
  | some r => some ((r.1 + 1) % 256, store8 r.2 (buffer_out + r.1) 0)

/-- The lowercase ASCII hexadecimal digit of a value below 16. -/
def hex_digit (d : Nat) : Nat := if d < 10 then 0x30 + d else 0x61 + (d - 10)

/-- The index, in the transformed payload of `B`, of the first byte that stands
for the payload byte `B[i]`: one position for each earlier payload byte and one
more for each earlier payload byte that is `SYNC` or `ESCAPE`. -/
def payload_index (c : Consts) (B : List Nat) (i : Nat) : Nat :=
  i + (B.take i).countP (fun b => decide (b = c.SYNC_BYTE ∨ b = c.ESCAPE_BYTE))

/-- The index, in the frame emitted for the payload `B`, of the first byte that
stands for the payload byte `B[i]`: the opening `SYNC` comes first. -/
def frame_index (c : Consts) (B : List Nat) (i : Nat) : Nat :=
  payload_index c B i + 1

/-! ## Auxiliary facts -/

theorem Machine.after_zero (s : Machine) : s.after 0 [] = s := by
  cases s; simp [Machine.after]

theorem Machine.after_after (s : Machine) (k k2 : Nat) (o o2 : List Nat) :
    (s.after k o).after k2 o2 = s.after (k + k2) (o ++ o2) := by
  cases s
  simp only [Machine.after, List.append_assoc, Machine.mk.injEq, true_and, and_true]
  funext j
  congr 1
  omega

theorem read_IFG2_snd (s : Machine) : (read_IFG2 s).2 = s.after 1 [] := by
  cases s; simp [read_IFG2, Machine.after]

theorem write_UCA0TXBUF_eq (v : Nat) (s : Machine) :
    write_UCA0TXBUF v s = s.after 0 [v % 256] := by
  cases s; simp [write_UCA0TXBUF, Machine.after]

theorem load8_after (s : Machine) (k : Nat) (o : List Nat) (a : Nat) :
    load8 (s.after k o) a = load8 s a := rfl

theorem load8_lt (s : Machine) (a : Nat) : load8 s a < 256 :=
  Nat.mod_lt _ (by decide)

theorem buffer_bytes_after (s : Machine) (k : Nat) (o : List Nat) :
    ∀ n a, buffer_bytes (s.after k o) a n = buffer_bytes s a n := by
  intro n
  induction n with
  | zero => intro a; rfl
  | succ n ih => intro a; simp [buffer_bytes, ih, load8_after]

theorem buffer_bytes_length (s : Machine) : ∀ n a, (buffer_bytes s a n).length = n := by
  intro n
  induction n with
  | zero => intro a; rfl
  | succ n ih => intro a; simp [buffer_bytes, ih]

theorem buffer_bytes_lt (s : Machine) : ∀ n a, ∀ b ∈ buffer_bytes s a n, b < 256 := by
  intro n
  induction n with
  | zero => intro a b hb; simp [buffer_bytes] at hb
  | succ n ih =>
    intro a b hb
    simp only [buffer_bytes, List.mem_cons] at hb
    rcases hb with rfl | hb
    · exact load8_lt s a
    · exact ih _ b hb

theorem buffer_bytes_eq_range (s : Machine) :
    ∀ n a, buffer_bytes s a n = (List.range n).map (fun i => load8 s (a + i)) := by
  intro n
  induction n with
  | zero => intro a; rfl
  | succ n ih =>
    intro a
    rw [buffer_bytes, ih, List.range_succ_eq_map]
    simp [List.map_map, Function.comp_def, Nat.add_assoc, Nat.add_comm 1]

theorem TxReady.after {c : Consts} {s : Machine} (h : TxReady c s) (k : Nat)
    (o : List Nat) : TxReady c (s.after k o) := by
  intro k2
  obtain ⟨j, hj, hr⟩ := h (k2 + k)
  refine ⟨j - k, by omega, ?_⟩
  have : j - k + k = j := by omega
  simpa [Machine.after, this] using hr

theorem tx_ready_wait_at (c : Consts) :
    ∀ j s, (s.IFG2 j % 256) &&& c.UCA0TXIFG ≠ 0 →
      ∃ k, ∀ fuel, j + 1 ≤ fuel → tx_ready_wait c fuel s = some (s.after k []) := by
  intro j
  induction j with
  | zero =>
    intro s h
    refine ⟨1, ?_⟩
    intro fuel hf
    obtain ⟨f, rfl⟩ : ∃ f, fuel = f + 1 := ⟨fuel - 1, by omega⟩
    have h1 : ¬ ((read_IFG2 s).1 &&& c.UCA0TXIFG = 0) := by simpa [read_IFG2] using h
    simp [tx_ready_wait, h1, read_IFG2_snd]
  | succ j ih =>
    intro s h
    by_cases h0 : (read_IFG2 s).1 &&& c.UCA0TXIFG = 0
    · have h2 : ((s.after 1 []).IFG2 j % 256) &&& c.UCA0TXIFG ≠ 0 := by
        simpa [Machine.after] using h
      obtain ⟨k, hk⟩ := ih (s.after 1 []) h2
      refine ⟨1 + k, ?_⟩
      intro fuel hf
      obtain ⟨f, rfl⟩ : ∃ f, fuel = f + 1 := ⟨fuel - 1, by omega⟩
      have := hk f (by omega)
      simp [tx_ready_wait, h0, read_IFG2_snd, this, Machine.after_after]
    · refine ⟨1, ?_⟩
      intro fuel hf
      obtain ⟨f, rfl⟩ : ∃ f, fuel = f + 1 := ⟨fuel - 1, by omega⟩
      simp [tx_ready_wait, h0, read_IFG2_snd]

theorem tx_ready_wait_total {c : Consts} {s : Machine} (h : TxReady c s) :
    ∃ k f0, ∀ fuel, f0 ≤ fuel → tx_ready_wait c fuel s = some (s.after k []) := by
  obtain ⟨j, -, hj⟩ := h 0
  obtain ⟨k, hk⟩ := tx_ready_wait_at c j s hj
  exact ⟨k, j + 1, hk⟩

theorem c_or_ne_zero (p q : Prop) [Decidable p] [Decidable q] :
    (if p then 1 else 0) ||| (if q then 1 else 0) ≠ 0 ↔ (p ∨ q) := by
  by_cases hp : p <;> by_cases hq : q <;>
    simp only [if_pos, if_neg, hp, hq, not_false_eq_true, or_self, or_true, true_or,
      iff_true, iff_false, not_not, ne_eq] <;> decide

theorem reserved_test (c : Consts) (b : Nat) :
    c_eq b c.SYNC_BYTE ||| c_eq b c.ESCAPE_BYTE ≠ 0 ↔
      (b = c.SYNC_BYTE ∨ b = c.ESCAPE_BYTE) :=
  c_or_ne_zero _ _

theorem xor32_lt {b : Nat} (h : b < 256) : b ^^^ 0x20 < 256 :=
  (Nat.xor_lt_two_pow (show b < 2 ^ 8 from h) (show 0x20 < 2 ^ 8 by decide) :
    b ^^^ 0x20 < 2 ^ 8)

theorem xor32_xor32 (b : Nat) : b ^^^ 0x20 ^^^ 0x20 = b := by
  rw [Nat.xor_assoc, Nat.xor_self, Nat.xor_zero]

theorem xor32_ne (b : Nat) : b ^^^ 0x20 ≠ b := by
  intro h
  have h2 : b ^^^ (b ^^^ 0x20) = b ^^^ b := by rw [h]
  rw [← Nat.xor_assoc, Nat.xor_self, Nat.zero_xor] at h2
  exact absurd h2 (by decide)

theorem uart_write_escaped_loop_total (c : Consts) (buffer length : Nat)
    (hlen : length < 65536) (hesc : c.ESCAPE_BYTE < 256) :
    ∀ n i s, i + n = length → TxReady c s →
      ∃ k f0, ∀ fuel, f0 ≤ fuel → ∀ m, n + 1 ≤ m →
        uart_write_escaped_loop c fuel buffer length m i s =
          some (s.after k (escape_payload c (buffer_bytes s (buffer + i) n))) := by
  intro n
  induction n with
  | zero =>
    intro i s hi _
    refine ⟨0, 0, ?_⟩
    intro fuel _ m hm
    obtain ⟨m, rfl⟩ : ∃ f, m = f + 1 := ⟨m - 1, by omega⟩
    have : ¬ i < length := by omega
    simp [uart_write_escaped_loop, this, buffer_bytes, escape_payload, Machine.after_zero]
  | succ n ih =>
    intro i s hi hr
    have hlt : i < length := by omega
    have hnext : (i + 1) % 65536 = i + 1 := Nat.mod_eq_of_lt (by omega)
    obtain ⟨k1, f1, h1⟩ := tx_ready_wait_total hr
    by_cases hres : load8 s (buffer + i) = c.SYNC_BYTE ∨ load8 s (buffer + i) = c.ESCAPE_BYTE
    · have htest := (reserved_test c (load8 s (buffer + i))).2 hres
      obtain ⟨k2, f2, h2⟩ :=
        tx_ready_wait_total (((hr.after k1 []).after 0 [c.ESCAPE_BYTE % 256]))
      obtain ⟨k3, f3, h3⟩ := ih (i + 1)
        ((((s.after k1 []).after 0 [c.ESCAPE_BYTE % 256]).after k2 []).after 0
          [(load8 s (buffer + i) ^^^ 0x20) % 256]) (by omega)
        ((((hr.after k1 []).after 0 [c.ESCAPE_BYTE % 256]).after k2 []).after 0 _)
      refine ⟨k1 + 0 + k2 + 0 + k3, max f1 (max f2 f3), ?_⟩
      intro fuel hf m hm
      obtain ⟨m, rfl⟩ : ∃ f, m = f + 1 := ⟨m - 1, by omega⟩
      have e1 := h1 fuel (le_trans (le_max_left _ _) hf)
      have e2 := h2 fuel (le_trans (le_trans (le_max_left _ _) (le_max_right _ _)) hf)
      have e3 := h3 fuel (le_trans (le_trans (le_max_right _ _) (le_max_right _ _)) hf) m
        (by omega)
      rw [uart_write_escaped_loop, if_pos hlt, if_pos htest, e1]
      simp only [write_UCA0TXBUF_eq, e2, load8_after, hnext]
      rw [e3]
      simp only [Machine.after_after, buffer_bytes_after, buffer_bytes, escape_payload,
        escape_transform, if_pos hres, Nat.mod_eq_of_lt hesc,
        Nat.mod_eq_of_lt (xor32_lt (load8_lt s (buffer + i)))]
      simp [Nat.add_assoc]
    · have htest : ¬ (c_eq (load8 s (buffer + i)) c.SYNC_BYTE |||
          c_eq (load8 s (buffer + i)) c.ESCAPE_BYTE ≠ 0) :=
        fun h => hres ((reserved_test c _).1 h)
      obtain ⟨k3, f3, h3⟩ := ih (i + 1)
        ((s.after k1 []).after 0 [load8 s (buffer + i) % 256]) (by omega)
        ((hr.after k1 []).after 0 _)
      refine ⟨k1 + 0 + k3, max f1 f3, ?_⟩
      intro fuel hf m hm
      obtain ⟨m, rfl⟩ : ∃ f, m = f + 1 := ⟨m - 1, by omega⟩
      have e1 := h1 fuel (le_trans (le_max_left _ _) hf)
      have e3 := h3 fuel (le_trans (le_max_right _ _) hf) m (by omega)
      rw [uart_write_escaped_loop, if_pos hlt, if_neg htest, e1]
      simp only [write_UCA0TXBUF_eq, load8_after, hnext]
      rw [e3]
      simp only [Machine.after_after, buffer_bytes_after, buffer_bytes, escape_payload,
        escape_transform, if_neg hres, Nat.mod_eq_of_lt (load8_lt s (buffer + i))]
      simp [Nat.add_assoc]

theorem uart_write_escaped_total (c : Consts) (buffer length : Nat) (s : Machine)
    (hlen : length < 65536) (hsync : c.SYNC_BYTE < 256) (hesc : c.ESCAPE_BYTE < 256)
    (hr : TxReady c s) :
    ∃ k f0, ∀ fuel, f0 ≤ fuel →
      uart_write_escaped c fuel buffer length s =
        some (s.after k (frame c (buffer_bytes s buffer length))) := by
  obtain ⟨k1, f1, h1⟩ := tx_ready_wait_total hr
  obtain ⟨k2, f2, h2⟩ := uart_write_escaped_loop_total c buffer length hlen hesc length 0
    ((s.after k1 []).after 0 [c.SYNC_BYTE % 256]) (by omega) ((hr.after k1 []).after 0 _)
  obtain ⟨k3, f3, h3⟩ := tx_ready_wait_total
    ((((hr.after k1 []).after 0 [c.SYNC_BYTE % 256])).after k2
      (escape_payload c (buffer_bytes
        ((s.after k1 []).after 0 [c.SYNC_BYTE % 256]) (buffer + 0) length)))
  refine ⟨k1 + 0 + k2 + k3 + 0, max (length + 1) (max f1 (max f2 f3)), ?_⟩
  intro fuel hf
  have e1 := h1 fuel (by omega)
  have e2 := h2 fuel (by omega) fuel (by omega)
  have e3 := h3 fuel (by omega)
  unfold uart_write_escaped
  rw [e1]
  simp only [write_UCA0TXBUF_eq, Nat.mod_eq_of_lt hlen]
  rw [e2]
  simp only [e3]
  simp only [Machine.after_after, buffer_bytes_after, frame, Nat.mod_eq_of_lt hsync,
    Nat.add_zero, List.nil_append, List.append_nil, List.singleton_append, List.cons_append]

theorem tx_ready_wait_some (c : Consts) :
    ∀ fuel s s1, tx_ready_wait c fuel s = some s1 → ∃ k, s1 = s.after k [] := by
  intro fuel
  induction fuel with
  | zero => intro s s1 h; simp [tx_ready_wait] at h
  | succ fuel ih =>
    intro s s1 h
    rw [tx_ready_wait] at h
    split at h
    · obtain ⟨k, hk⟩ := ih _ _ h
      exact ⟨1 + k, by rw [hk, read_IFG2_snd, Machine.after_after]; rfl⟩
    · exact ⟨1, by rw [← read_IFG2_snd]; exact (Option.some.inj h).symm⟩

theorem buffer_bytes_step (s : Machine) (a n : Nat) (h : 0 < n) :
    buffer_bytes s a n = load8 s a :: buffer_bytes s (a + 1) (n - 1) := by
  obtain ⟨n, rfl⟩ : ∃ f, n = f + 1 := ⟨n - 1, by omega⟩
  rfl

theorem uart_write_escaped_loop_some (c : Consts) (fuel buffer length : Nat)
    (hlen : length < 65536) (hesc : c.ESCAPE_BYTE < 256) :
    ∀ m i s s', i ≤ length → uart_write_escaped_loop c fuel buffer length m i s = some s' →
      ∃ k, s' = s.after k (escape_payload c (buffer_bytes s (buffer + i) (length - i))) := by
  intro m
  induction m with
  | zero => intro i s s' _ h; simp [uart_write_escaped_loop] at h
  | succ m ih =>
    intro i s s' hi h
    by_cases hlt : i < length
    · have hnext : (i + 1) % 65536 = i + 1 := Nat.mod_eq_of_lt (by omega)
      have hstep := buffer_bytes_step s (buffer + i) (length - i) (by omega)
      have hsub : length - i - 1 = length - (i + 1) := by omega
      by_cases hres : load8 s (buffer + i) = c.SYNC_BYTE ∨
          load8 s (buffer + i) = c.ESCAPE_BYTE
      · have htest := (reserved_test c (load8 s (buffer + i))).2 hres
        rw [uart_write_escaped_loop, if_pos hlt, if_pos htest] at h
        cases h1 : tx_ready_wait c fuel s with
        | none => simp [h1] at h
        | some s1 =>
          obtain ⟨k1, rfl⟩ := tx_ready_wait_some c _ _ _ h1
          simp only [h1] at h
          cases h2 : tx_ready_wait c fuel (write_UCA0TXBUF c.ESCAPE_BYTE (s.after k1 [])) with
          | none => simp [h2] at h
          | some s2 =>
            obtain ⟨k2, rfl⟩ := tx_ready_wait_some c _ _ _ h2
            simp only [h2, hnext] at h
            obtain ⟨k3, rfl⟩ := ih _ _ _ (by omega) h
            refine ⟨k1 + 0 + k2 + 0 + k3, ?_⟩
            simp only [write_UCA0TXBUF_eq, Machine.after_after, buffer_bytes_after, hstep,
              hsub, load8_after, escape_payload, escape_transform, if_pos hres,
              Nat.mod_eq_of_lt hesc, Nat.mod_eq_of_lt (xor32_lt (load8_lt s (buffer + i)))]
            simp [Nat.add_assoc]
      · have htest : ¬ (c_eq (load8 s (buffer + i)) c.SYNC_BYTE |||
            c_eq (load8 s (buffer + i)) c.ESCAPE_BYTE ≠ 0) :=
          fun h => hres ((reserved_test c _).1 h)
        rw [uart_write_escaped_loop, if_pos hlt, if_neg htest] at h
        cases h1 : tx_ready_wait c fuel s with
        | none => simp [h1] at h
        | some s1 =>
          obtain ⟨k1, rfl⟩ := tx_ready_wait_some c _ _ _ h1
          simp only [h1, hnext] at h
          obtain ⟨k3, rfl⟩ := ih _ _ _ (by omega) h
          refine ⟨k1 + 0 + k3, ?_⟩
          simp only [write_UCA0TXBUF_eq, Machine.after_after, buffer_bytes_after, hstep,
            hsub, load8_after, escape_payload, escape_transform, if_neg hres,
            Nat.mod_eq_of_lt (load8_lt s (buffer + i))]
          simp [Nat.add_assoc]
    · rw [uart_write_escaped_loop, if_neg hlt] at h
      have h0 : length - i = 0 := by omega
      refine ⟨0, ?_⟩
      rw [h0]
      simp only [buffer_bytes, escape_payload, Machine.after_zero]
      exact (Option.some.inj h).symm

theorem uart_write_escaped_some (c : Consts) (fuel buffer length : Nat) (s s' : Machine)
    (hlen : length < 65536) (hsync : c.SYNC_BYTE < 256) (hesc : c.ESCAPE_BYTE < 256)
    (h : uart_write_escaped c fuel buffer length s = some s') :
    ∃ k, s' = s.after k (frame c (buffer_bytes s buffer length)) := by
  unfold uart_write_escaped at h
  cases h1 : tx_ready_wait c fuel s with
  | none => simp [h1] at h
  | some s1 =>
    obtain ⟨k1, rfl⟩ := tx_ready_wait_some c _ _ _ h1
    simp only [h1, Nat.mod_eq_of_lt hlen] at h
    cases h2 : uart_write_escaped_loop c fuel buffer length fuel 0
        (write_UCA0TXBUF c.SYNC_BYTE (s.after k1 [])) with
    | none => simp [h2] at h
    | some s2 =>
      obtain ⟨k2, rfl⟩ :=
        uart_write_escaped_loop_some c fuel buffer length hlen hesc _ _ _ _ (Nat.zero_le _) h2
      simp only [h2, Nat.add_zero, Nat.sub_zero] at h
      cases h3 : tx_ready_wait c fuel
          ((write_UCA0TXBUF c.SYNC_BYTE (s.after k1 [])).after k2
            (escape_payload c (buffer_bytes (write_UCA0TXBUF c.SYNC_BYTE (s.after k1 []))
              buffer length))) with
      | none => simp [h3] at h
      | some s3 =>
        obtain ⟨k3, rfl⟩ := tx_ready_wait_some c _ _ _ h3
        simp only [h3] at h
        refine ⟨k1 + 0 + k2 + k3 + 0, ?_⟩
        rw [← Option.some.inj h]
        simp only [write_UCA0TXBUF_eq, Machine.after_after, buffer_bytes_after, frame,
          Nat.mod_eq_of_lt hsync, Nat.add_zero, Nat.sub_zero, List.nil_append,
          List.append_nil, List.singleton_append, List.cons_append]

theorem uart_write_loop_total (c : Consts) (buffer length : Nat) (hlen : length < 65536) :
    ∀ n i s, i + n = length → TxReady c s →
      ∃ k f0, ∀ fuel, f0 ≤ fuel → ∀ m, n + 1 ≤ m →
        uart_write_loop c fuel buffer length m i s =
          some (s.after k (buffer_bytes s (buffer + i) n)) := by
  intro n
  induction n with
  | zero =>
    intro i s hi _
    refine ⟨0, 0, ?_⟩
    intro fuel _ m hm
    obtain ⟨m, rfl⟩ : ∃ f, m = f + 1 := ⟨m - 1, by omega⟩
    have : ¬ i < length := by omega
    simp [uart_write_loop, this, buffer_bytes, Machine.after_zero]
  | succ n ih =>
    intro i s hi hr
    have hlt : i < length := by omega
    have hnext : (i + 1) % 65536 = i + 1 := Nat.mod_eq_of_lt (by omega)
    obtain ⟨k1, f1, h1⟩ := tx_ready_wait_total hr
    obtain ⟨k3, f3, h3⟩ := ih (i + 1)
      ((s.after k1 []).after 0 [load8 s (buffer + i) % 256]) (by omega)
      ((hr.after k1 []).after 0 _)
    refine ⟨k1 + 0 + k3, max f1 f3, ?_⟩
    intro fuel hf m hm
    obtain ⟨m, rfl⟩ : ∃ f, m = f + 1 := ⟨m - 1, by omega⟩
    have e1 := h1 fuel (le_trans (le_max_left _ _) hf)
    have e3 := h3 fuel (le_trans (le_max_right _ _) hf) m (by omega)
    rw [uart_write_loop, if_pos hlt, e1]
    simp only [write_UCA0TXBUF_eq, load8_after, hnext]
    rw [e3]
    simp only [Machine.after_after, buffer_bytes_after, buffer_bytes,
      Nat.mod_eq_of_lt (load8_lt s (buffer + i))]
    simp [Nat.add_assoc]

theorem uart_write_total (c : Consts) (buffer length : Nat) (s : Machine)
    (hlen : length < 65536) (hr : TxReady c s) :
    ∃ k f0, ∀ fuel, f0 ≤ fuel →
      uart_write c fuel buffer length s = some (s.after k (buffer_bytes s buffer length)) := by
  obtain ⟨k, f0, h⟩ := uart_write_loop_total c buffer length hlen length 0 s (by omega) hr
  refine ⟨k, max (length + 1) f0, ?_⟩
  intro fuel hf
  have e := h fuel (by omega) fuel (by omega)
  unfold uart_write
  rw [Nat.mod_eq_of_lt hlen, e, Nat.add_zero]

theorem uart_write_loop_some (c : Consts) (fuel buffer length : Nat)
    (hlen : length < 65536) :
    ∀ m i s s', i ≤ length → uart_write_loop c fuel buffer length m i s = some s' →
      ∃ k, s' = s.after k (buffer_bytes s (buffer + i) (length - i)) := by
  intro m
  induction m with
  | zero => intro i s s' _ h; simp [uart_write_loop] at h
  | succ m ih =>
    intro i s s' hi h
    by_cases hlt : i < length
    · have hnext : (i + 1) % 65536 = i + 1 := Nat.mod_eq_of_lt (by omega)
      have hstep := buffer_bytes_step s (buffer + i) (length - i) (by omega)
      have hsub : length - i - 1 = length - (i + 1) := by omega
      rw [uart_write_loop, if_pos hlt] at h
      cases h1 : tx_ready_wait c fuel s with
      | none => simp [h1] at h
      | some s1 =>
        obtain ⟨k1, rfl⟩ := tx_ready_wait_some c _ _ _ h1
        simp only [h1, hnext] at h
        obtain ⟨k3, rfl⟩ := ih _ _ _ (by omega) h
        refine ⟨k1 + 0 + k3, ?_⟩
        simp only [write_UCA0TXBUF_eq, Machine.after_after, buffer_bytes_after, hstep,
          hsub, load8_after, Nat.mod_eq_of_lt (load8_lt s (buffer + i))]
        simp [Nat.add_assoc]
    · rw [uart_write_loop, if_neg hlt] at h
      have h0 : length - i = 0 := by omega
      refine ⟨0, ?_⟩
      rw [h0]
      simp only [buffer_bytes, Machine.after_zero]
      exact (Option.some.inj h).symm

theorem uart_write_some (c : Consts) (fuel buffer length : Nat) (s s' : Machine)
    (hlen : length < 65536) (h : uart_write c fuel buffer length s = some s') :
    ∃ k, s' = s.after k (buffer_bytes s buffer length) := by
  unfold uart_write at h
  rw [Nat.mod_eq_of_lt hlen] at h
  obtain ⟨k, hk⟩ := uart_write_loop_some c fuel buffer length hlen _ _ _ _ (Nat.zero_le _) h
  exact ⟨k, by simpa using hk⟩

theorem demo_machine_ready (data : List Nat) : TxReady demo_consts (demo_machine data) := by
  intro k
  refine ⟨2 * k + 1, by omega, ?_⟩
  have h : (2 * k + 1) % 2 = 1 := by omega
  simp only [demo_machine, Machine.init, demo_consts, h, if_true]
  decide

theorem emitted_after (s : Machine) (k : Nat) (o : List Nat) :
    (s.after k o).UCA0TXBUF.drop s.UCA0TXBUF.length = o := by
  simp [Machine.after]

theorem escape_payload_eq_flatten (c : Consts) (B : List Nat) :
    escape_payload c B = (B.map (escape_transform c)).flatten := by
  induction B with
  | nil => rfl
  | cons b bs ih => simp [escape_payload, ih]

theorem spec_unescape_payload (c : Consts) (B : List Nat) :
    spec_unescape c (escape_payload c B) = B := by
  induction B with
  | nil => rfl
  | cons b bs ih =>
    by_cases hres : b = c.SYNC_BYTE ∨ b = c.ESCAPE_BYTE
    · simp [escape_payload, escape_transform, hres, spec_unescape, xor32_xor32, ih]
    · have hb : b ≠ c.ESCAPE_BYTE := fun h => hres (Or.inr h)
      simp only [escape_payload, escape_transform, if_neg hres, List.singleton_append]
      cases hrest : escape_payload c bs with
      | nil =>
        rw [hrest] at ih
        simp only [spec_unescape] at ih
        simp [spec_unescape, ← ih]
      | cons x r =>
        rw [hrest] at ih
        simp [spec_unescape, hb, ih]

theorem spec_decode_frame (c : Consts) (B : List Nat) : spec_decode c (frame c B) = B := by
  simp [spec_decode, frame, List.dropLast_concat, spec_unescape_payload]

theorem sync_not_mem_payload (c : Consts) (hne : c.SYNC_BYTE ≠ c.ESCAPE_BYTE)
    (hx : c.ESCAPE_BYTE ^^^ 0x20 ≠ c.SYNC_BYTE) (B : List Nat) :
    c.SYNC_BYTE ∉ escape_payload c B := by
  induction B with
  | nil => simp [escape_payload]
  | cons b bs ih =>
    by_cases hres : b = c.SYNC_BYTE ∨ b = c.ESCAPE_BYTE
    · simp only [escape_payload, escape_transform, if_pos hres, List.cons_append,
        List.nil_append, List.mem_cons, not_or]
      refine ⟨hne, ?_, ih⟩
      rcases hres with h | h
      · rw [h]; exact fun e => xor32_ne _ e.symm
      · rw [h]; exact fun e => hx e.symm
    · have hb : c.SYNC_BYTE ≠ b := fun h => hres (Or.inl h.symm)
      simp only [escape_payload, escape_transform, if_neg hres, List.singleton_append,
        List.mem_cons, not_or]
      exact ⟨hb, ih⟩

theorem frame_length (c : Consts) (B : List Nat) :
    (frame c B).length = (escape_payload c B).length + 2 := by
  simp [frame]

theorem frame_sync_positions (c : Consts) (hne : c.SYNC_BYTE ≠ c.ESCAPE_BYTE)
    (hx : c.ESCAPE_BYTE ^^^ 0x20 ≠ c.SYNC_BYTE) (B : List Nat) (i : Nat) :
    (frame c B)[i]? = some c.SYNC_BYTE ↔ (i = 0 ∨ i + 1 = (frame c B).length) := by
  have hnot := sync_not_mem_payload c hne hx B
  rw [frame_length]
  cases i with
  | zero => simp [frame]
  | succ j =>
    simp only [frame, List.getElem?_cons_succ, List.getElem?_append]
    by_cases hj : j < (escape_payload c B).length
    · rw [if_pos hj]
      constructor
      · intro h
        exact absurd (List.mem_iff_getElem?.2 ⟨j, h⟩) hnot
      · intro h; omega
    · rw [if_neg hj]
      by_cases hj2 : j = (escape_payload c B).length
      · simp [hj2]
      · have h3 : 1 ≤ j - (escape_payload c B).length := by omega
        have h4 : ([c.SYNC_BYTE] : List Nat)[j - (escape_payload c B).length]? = none :=
          List.getElem?_eq_none (by simpa using h3)
        rw [h4]
        constructor
        · intro h; cases h
        · intro h; omega

theorem frame_tail_indexOf (c : Consts) (hne : c.SYNC_BYTE ≠ c.ESCAPE_BYTE)
    (hx : c.ESCAPE_BYTE ^^^ 0x20 ≠ c.SYNC_BYTE) (B : List Nat) :
    (frame c B).tail.indexOf c.SYNC_BYTE + 2 = (frame c B).length := by
  rw [frame_length]
  simp only [frame, List.tail_cons]
  rw [List.indexOf_append_of_not_mem (sync_not_mem_payload c hne hx B)]
  simp

theorem uart_write_escaped_emits (c : Consts) (buffer length : Nat) (s : Machine)
    (hlen : length < 65536) (hsync : c.SYNC_BYTE < 256) (hesc : c.ESCAPE_BYTE < 256)
    (hr : TxReady c s) :
    (∃ f0, ∀ fuel, f0 ≤ fuel → ∃ s', uart_write_escaped c fuel buffer length s = some s') ∧
    (∀ fuel s', uart_write_escaped c fuel buffer length s = some s' →
      s'.UCA0TXBUF.drop s.UCA0TXBUF.length = frame c (buffer_bytes s buffer length)) := by
  constructor
  · obtain ⟨k, f0, h⟩ := uart_write_escaped_total c buffer length s hlen hsync hesc hr
    exact ⟨f0, fun fuel hf => ⟨_, h fuel hf⟩⟩
  · intro fuel s' h
    obtain ⟨k, rfl⟩ := uart_write_escaped_some c fuel buffer length s s' hlen hsync hesc h
    exact emitted_after _ _ _

/-! ## The framed writer -/

/-- C1: for every buffer of `length ≤ 65535` bytes in memory and every prior
transmit log, on a transmitter that becomes ready again and again,
`uart_write_escaped` returns once the bound on its loops is large enough, and
whenever it returns the transmit log is the prior log followed by exactly
`SYNC`, then for each buffer byte in buffer order `ESCAPE, byte xor 0x20` if the
byte is `SYNC` or `ESCAPE` and the byte itself otherwise, then `SYNC`. -/
theorem uart_write_escaped_frame (c : Consts) (buffer length : Nat) (s : Machine)
    (hlen : length < 65536) (hsync : c.SYNC_BYTE < 256) (hesc : c.ESCAPE_BYTE < 256)
    (hr : TxReady c s) :
    (∃ f0, ∀ fuel, f0 ≤ fuel → ∃ s', uart_write_escaped c fuel buffer length s = some s') ∧
    (∀ fuel s', uart_write_escaped c fuel buffer length s = some s' →
      s'.UCA0TXBUF = s.UCA0TXBUF ++ ([c.SYNC_BYTE] ++
        ((buffer_bytes s buffer length).map (fun b =>
          if b = c.SYNC_BYTE ∨ b = c.ESCAPE_BYTE then [c.ESCAPE_BYTE, b ^^^ 0x20]
          else [b])).flatten ++ [c.SYNC_BYTE])) := by
  refine ⟨(uart_write_escaped_emits c buffer length s hlen hsync hesc hr).1, ?_⟩
  intro fuel s' h
  obtain ⟨k, rfl⟩ := uart_write_escaped_some c fuel buffer length s s' hlen hsync hesc h
  have e : (fun b => if b = c.SYNC_BYTE ∨ b = c.ESCAPE_BYTE then [c.ESCAPE_BYTE, b ^^^ 0x20]
      else [b]) = escape_transform c := by
    funext b; rfl
  rw [e, ← escape_payload_eq_flatten]
  simp [Machine.after, frame]

/-- Witness of C1: the payload `0x41, 0x7E, 0x42` with `SYNC = 0x7E`,
`ESCAPE = 0x7D`, after a prior log, on a transmitter ready at every second
read. -/
theorem uart_write_escaped_frame_witness :
    (3 < 65536 ∧ demo_consts.SYNC_BYTE < 256 ∧ demo_consts.ESCAPE_BYTE < 256 ∧
      TxReady demo_consts (write_UCA0TXBUF 0x99 (demo_machine [0x41, 0x7E, 0x42]))) ∧
    ((∃ f0, ∀ fuel, f0 ≤ fuel → ∃ s', uart_write_escaped demo_consts fuel 0 3
        (write_UCA0TXBUF 0x99 (demo_machine [0x41, 0x7E, 0x42])) = some s') ∧
      (∀ fuel s', uart_write_escaped demo_consts fuel 0 3
          (write_UCA0TXBUF 0x99 (demo_machine [0x41, 0x7E, 0x42])) = some s' →
        s'.UCA0TXBUF = [0x99] ++ ([0x7E] ++ [[0x41], [0x7D, 0x5E], [0x42]].flatten ++ [0x7E]))) ∧
    (uart_write_escaped demo_consts 4 0 3
        (write_UCA0TXBUF 0x99 (demo_machine [0x41, 0x7E, 0x42]))).map Machine.UCA0TXBUF =
      some [0x99, 0x7E, 0x41, 0x7D, 0x5E, 0x42, 0x7E] :=
  ⟨⟨by decide, by decide, by decide,
      by rw [write_UCA0TXBUF_eq]; exact (demo_machine_ready _).after 0 _⟩,
    uart_write_escaped_frame demo_consts 0 3 _ (by decide) (by decide) (by decide)
      (by rw [write_UCA0TXBUF_eq]; exact (demo_machine_ready _).after 0 _),
    rfl⟩

/-- C2: round trip.  For every buffer in memory (any bytes, `SYNC` and `ESCAPE`
included, any length up to 65535, the empty buffer included),
`uart_write_escaped` returns, and decoding the frame it has emitted (strip the
first and the last byte, replace every pair `ESCAPE, X` by `X xor 0x20`, copy
the other bytes) gives back the buffer. -/
theorem uart_write_escaped_round_trip (c : Consts) (buffer length : Nat) (s : Machine)
    (hlen : length < 65536) (hsync : c.SYNC_BYTE < 256) (hesc : c.ESCAPE_BYTE < 256)
    (hr : TxReady c s) :
    (∃ f0, ∀ fuel, f0 ≤ fuel → ∃ s', uart_write_escaped c fuel buffer length s = some s') ∧
    (∀ fuel s', uart_write_escaped c fuel buffer length s = some s' →
      spec_decode c (s'.UCA0TXBUF.drop s.UCA0TXBUF.length) = buffer_bytes s buffer length) := by
  obtain ⟨h1, h2⟩ := uart_write_escaped_emits c buffer length s hlen hsync hesc hr
  refine ⟨h1, ?_⟩
  intro fuel s' h
  rw [h2 fuel s' h, spec_decode_frame]

/-- Witness of C2: the payload `0x7D, 0x7E, 0x5E, 0x7D` with `SYNC = 0x7E`,
`ESCAPE = 0x7D`. -/
theorem uart_write_escaped_round_trip_witness :
    (4 < 65536 ∧ demo_consts.SYNC_BYTE < 256 ∧ demo_consts.ESCAPE_BYTE < 256 ∧
      TxReady demo_consts (demo_machine [0x7D, 0x7E, 0x5E, 0x7D])) ∧
    ((∃ f0, ∀ fuel, f0 ≤ fuel → ∃ s', uart_write_escaped demo_consts fuel 0 4
        (demo_machine [0x7D, 0x7E, 0x5E, 0x7D]) = some s') ∧
      (∀ fuel s', uart_write_escaped demo_consts fuel 0 4
          (demo_machine [0x7D, 0x7E, 0x5E, 0x7D]) = some s' →
        spec_decode demo_consts (s'.UCA0TXBUF.drop 0) = [0x7D, 0x7E, 0x5E, 0x7D])) ∧
    (uart_write_escaped demo_consts 5 0 4
        (demo_machine [0x7D, 0x7E, 0x5E, 0x7D])).map Machine.UCA0TXBUF =
      some [0x7E, 0x7D, 0x5D, 0x7D, 0x5E, 0x5E, 0x7D, 0x5D, 0x7E] ∧
    spec_decode demo_consts [0x7E, 0x7D, 0x5D, 0x7D, 0x5E, 0x5E, 0x7D, 0x5D, 0x7E] =
      [0x7D, 0x7E, 0x5E, 0x7D] :=
  ⟨⟨by decide, by decide, by decide, demo_machine_ready _⟩,
    uart_write_escaped_round_trip demo_consts 0 4 _ (by decide) (by decide) (by decide)
      (demo_machine_ready _),
    rfl, by decide⟩

/-- C3: delimiter exclusivity.  With `SYNC ≠ ESCAPE` and `ESCAPE xor 0x20 ≠ SYNC`
(the other parts of the constant invariant hold for every value), the frame
emitted by `uart_write_escaped` holds `SYNC` at its first and at its last
position and nowhere else, the two positions being different; so the first
`SYNC` found from the second byte on is the last byte of the frame. -/
theorem uart_write_escaped_delimiters (c : Consts) (buffer length : Nat) (s : Machine)
    (hlen : length < 65536) (hsync : c.SYNC_BYTE < 256) (hesc : c.ESCAPE_BYTE < 256)
    (hr : TxReady c s) (hne : c.SYNC_BYTE ≠ c.ESCAPE_BYTE)
    (hx : c.ESCAPE_BYTE ^^^ 0x20 ≠ c.SYNC_BYTE) :
    (∃ f0, ∀ fuel, f0 ≤ fuel → ∃ s', uart_write_escaped c fuel buffer length s = some s') ∧
    (∀ fuel s', uart_write_escaped c fuel buffer length s = some s' →
      2 ≤ (s'.UCA0TXBUF.drop s.UCA0TXBUF.length).length ∧
      (∀ i, (s'.UCA0TXBUF.drop s.UCA0TXBUF.length)[i]? = some c.SYNC_BYTE ↔
        (i = 0 ∨ i + 1 = (s'.UCA0TXBUF.drop s.UCA0TXBUF.length).length)) ∧
      (s'.UCA0TXBUF.drop s.UCA0TXBUF.length).tail.indexOf c.SYNC_BYTE + 2 =
        (s'.UCA0TXBUF.drop s.UCA0TXBUF.length).length) := by
  obtain ⟨h1, h2⟩ := uart_write_escaped_emits c buffer length s hlen hsync hesc hr
  refine ⟨h1, ?_⟩
  intro fuel s' h
  rw [h2 fuel s' h]
  exact ⟨by rw [frame_length]; omega, fun i => frame_sync_positions c hne hx _ i,
    frame_tail_indexOf c hne hx _⟩

/-- Witness of C3: the payload `0x7E, 0x7D, 0x5E, 0x7E` with `SYNC = 0x7E`,
`ESCAPE = 0x7D`. -/
theorem uart_write_escaped_delimiters_witness :
    (4 < 65536 ∧ demo_consts.SYNC_BYTE < 256 ∧ demo_consts.ESCAPE_BYTE < 256 ∧
      TxReady demo_consts (demo_machine [0x7E, 0x7D, 0x5E, 0x7E]) ∧
      demo_consts.SYNC_BYTE ≠ demo_consts.ESCAPE_BYTE ∧
      demo_consts.ESCAPE_BYTE ^^^ 0x20 ≠ demo_consts.SYNC_BYTE) ∧
    ((∃ f0, ∀ fuel, f0 ≤ fuel → ∃ s', uart_write_escaped demo_consts fuel 0 4
        (demo_machine [0x7E, 0x7D, 0x5E, 0x7E]) = some s') ∧
      (∀ fuel s', uart_write_escaped demo_consts fuel 0 4
          (demo_machine [0x7E, 0x7D, 0x5E, 0x7E]) = some s' →
        2 ≤ (s'.UCA0TXBUF.drop 0).length ∧
        (∀ i, (s'.UCA0TXBUF.drop 0)[i]? = some 0x7E ↔
          (i = 0 ∨ i + 1 = (s'.UCA0TXBUF.drop 0).length)) ∧
        (s'.UCA0TXBUF.drop 0).tail.indexOf 0x7E + 2 = (s'.UCA0TXBUF.drop 0).length)) ∧
    (uart_write_escaped demo_consts 5 0 4
        (demo_machine [0x7E, 0x7D, 0x5E, 0x7E])).map Machine.UCA0TXBUF =
      some [0x7E, 0x7D, 0x5E, 0x7D, 0x5D, 0x5E, 0x7D, 0x5E, 0x7E] :=
  ⟨⟨by decide, by decide, by decide, demo_machine_ready _, by decide, by decide⟩,
    uart_write_escaped_delimiters demo_consts 0 4 _ (by decide) (by decide) (by decide)
      (demo_machine_ready _) (by decide) (by decide),
    rfl⟩

/-! ## The raw writer -/

/-- C10: for every buffer of `length ≤ 65535` bytes in memory, on a transmitter
that becomes ready again and again, `uart_write` returns once the bound on its
loops is large enough, and whenever it returns the transmit log is the prior
log followed by exactly the `length` buffer bytes, in order and unchanged, with
no delimiter and no escape; for `length = 0` the log is the prior log. -/
theorem uart_write_raw (c : Consts) (buffer length : Nat) (s : Machine)
    (hlen : length < 65536) (hr : TxReady c s) :
    (∃ f0, ∀ fuel, f0 ≤ fuel → ∃ s', uart_write c fuel buffer length s = some s') ∧
    (∀ fuel s', uart_write c fuel buffer length s = some s' →
      s'.UCA0TXBUF = s.UCA0TXBUF ++ (List.range length).map (fun i => load8 s (buffer + i))) ∧
    (length = 0 → ∀ fuel s', uart_write c fuel buffer length s = some s' →
      s'.UCA0TXBUF = s.UCA0TXBUF) := by
  have hpart : ∀ fuel s', uart_write c fuel buffer length s = some s' →
      s'.UCA0TXBUF = s.UCA0TXBUF ++ buffer_bytes s buffer length := by
    intro fuel s' h
    obtain ⟨k, rfl⟩ := uart_write_some c fuel buffer length s s' hlen h
    rfl
  refine ⟨?_, ?_, ?_⟩
  · obtain ⟨k, f0, h⟩ := uart_write_total c buffer length s hlen hr
    exact ⟨f0, fun fuel hf => ⟨_, h fuel hf⟩⟩
  · intro fuel s' h
    rw [hpart fuel s' h, buffer_bytes_eq_range]
  · intro h0 fuel s' h
    rw [hpart fuel s' h, h0]
    simp [buffer_bytes]

/-- Witness of C10: the bytes `0x7E, 0x41, 0x7D` are sent as they are. -/
theorem uart_write_raw_witness :
    (3 < 65536 ∧ TxReady demo_consts (demo_machine [0x7E, 0x41, 0x7D])) ∧
    ((∃ f0, ∀ fuel, f0 ≤ fuel → ∃ s', uart_write demo_consts fuel 0 3
        (demo_machine [0x7E, 0x41, 0x7D]) = some s') ∧
      (∀ fuel s', uart_write demo_consts fuel 0 3 (demo_machine [0x7E, 0x41, 0x7D]) = some s' →
        s'.UCA0TXBUF = [] ++ (List.range 3).map
          (fun i => load8 (demo_machine [0x7E, 0x41, 0x7D]) (0 + i))) ∧
      (3 = 0 → ∀ fuel s', uart_write demo_consts fuel 0 3
          (demo_machine [0x7E, 0x41, 0x7D]) = some s' → s'.UCA0TXBUF = [])) ∧
    (uart_write demo_consts 4 0 3 (demo_machine [0x7E, 0x41, 0x7D])).map Machine.UCA0TXBUF =
      some [0x7E, 0x41, 0x7D] ∧
    (uart_write demo_consts 1 0 0 (demo_machine [0x7E, 0x41, 0x7D])).map Machine.UCA0TXBUF =
      some [] :=
  ⟨⟨by decide, demo_machine_ready _⟩,
    uart_write_raw demo_consts 0 3 _ (by decide) (demo_machine_ready _), rfl, rfl⟩

/-! ## The receive dispatcher -/

theorem uart_rx_isr_receive (c : Consts) (app : Nat → Handler) (s : Sys)
    (hrx : (s.m.IFG2 0 % 256) &&& c.UCA0RXIFG ≠ 0) :
    uart_rx_isr c app s =
      { m := (call_handler app s.m.uart_rx_callback (s.m.UCA0RXBUF 0 % 256)
          (handler_entry s.m)).2,
        trace := s.trace ++ ([Event.rx_read (s.m.UCA0RXBUF 0 % 256),
            Event.call s.m.uart_rx_callback (s.m.UCA0RXBUF 0 % 256)] ++
          if (call_handler app s.m.uart_rx_callback (s.m.UCA0RXBUF 0 % 256)
              (handler_entry s.m)).1 % 256 ≠ 0
          then [Event.wake c.LPM1_bits] else []) } := by
  have h1 : (read_IFG2 s.m).1 &&& c.UCA0RXIFG ≠ 0 := hrx
  unfold uart_rx_isr
  rw [if_pos h1]
  by_cases hw : (call_handler app s.m.uart_rx_callback (s.m.UCA0RXBUF 0 % 256)
      (handler_entry s.m)).1 % 256 ≠ 0
  · rw [if_pos hw]
    have hw2 : (call_handler app (read_UCA0RXBUF (read_IFG2 s.m).2).2.uart_rx_callback
        (read_UCA0RXBUF (read_IFG2 s.m).2).1 (read_UCA0RXBUF (read_IFG2 s.m).2).2).1 % 256 ≠ 0 :=
      hw
    simp only [if_pos hw2]
    rfl
  · rw [if_neg hw]
    have hw2 : ¬ (call_handler app (read_UCA0RXBUF (read_IFG2 s.m).2).2.uart_rx_callback
        (read_UCA0RXBUF (read_IFG2 s.m).2).1 (read_UCA0RXBUF (read_IFG2 s.m).2).2).1 % 256 ≠ 0 :=
      hw
    simp only [if_neg hw2]
    rfl

theorem uart_rx_isr_other (c : Consts) (app : Nat → Handler) (s : Sys)
    (hrx : (s.m.IFG2 0 % 256) &&& c.UCA0RXIFG = 0) :
    uart_rx_isr c app s =
      { m := { s.m with IFG2 := fun k => s.m.IFG2 (k + 2) }, trace := s.trace } := by
  have h1 : ¬ ((read_IFG2 s.m).1 &&& c.UCA0RXIFG ≠ 0) := not_not.2 hrx
  unfold uart_rx_isr
  rw [if_neg h1]
  split <;> rfl

/-- C5: dispatch with wake.  When `uart_rx_isr` runs and finds `UCA0RXIFG` set,
with any handler `H` in the callback slot and any byte `b` in the receive
register, it reads the receive register once, calls `H` once with `b` on the
machine as it is after that read, leaves the machine as `H` returns it, and
calls `__bic_SR_register_on_exit(LPM1_bits)` exactly when the value `H`
returned is nonzero; otherwise no wake request is made. -/
theorem uart_rx_isr_dispatch (c : Consts) (app : Nat → Handler) (s : Sys)
    (hrx : (s.m.IFG2 0 % 256) &&& c.UCA0RXIFG ≠ 0) :
    (uart_rx_isr c app s).m =
      (call_handler app s.m.uart_rx_callback (s.m.UCA0RXBUF 0 % 256) (handler_entry s.m)).2 ∧
    (handler_entry s.m).UCA0RXBUF = (fun k => s.m.UCA0RXBUF (k + 1)) ∧
    (uart_rx_isr c app s).trace =
      s.trace ++ ([Event.rx_read (s.m.UCA0RXBUF 0 % 256),
          Event.call s.m.uart_rx_callback (s.m.UCA0RXBUF 0 % 256)] ++
        if (call_handler app s.m.uart_rx_callback (s.m.UCA0RXBUF 0 % 256)
            (handler_entry s.m)).1 % 256 ≠ 0
        then [Event.wake c.LPM1_bits] else []) ∧
    (Event.wake c.LPM1_bits ∈ (uart_rx_isr c app s).trace.drop s.trace.length ↔
      (call_handler app s.m.uart_rx_callback (s.m.UCA0RXBUF 0 % 256)
        (handler_entry s.m)).1 % 256 ≠ 0) := by
  rw [uart_rx_isr_receive c app s hrx]
  refine ⟨rfl, rfl, rfl, ?_⟩
  simp only [List.drop_left]
  by_cases hw : (call_handler app s.m.uart_rx_callback (s.m.UCA0RXBUF 0 % 256)
      (handler_entry s.m)).1 % 256 ≠ 0
  · simp [if_pos hw, hw]
  · simp [if_neg hw, hw]

/-- Witness of C5: with the handler that returns `1` for odd bytes registered,
the dispatch of `0x05` requests the wake and the dispatch of `0x04` does not. -/
theorem uart_rx_isr_dispatch_witness :
    (((Sys.register (FnPtr.user 1) (demo_sys 0x01 [0x05])).m.IFG2 0 % 256) &&&
        demo_consts.UCA0RXIFG ≠ 0 ∧
      ((Sys.register (FnPtr.user 1) (demo_sys 0x01 [0x04])).m.IFG2 0 % 256) &&&
        demo_consts.UCA0RXIFG ≠ 0) ∧
    (uart_rx_isr demo_consts demo_app
        (Sys.register (FnPtr.user 1) (demo_sys 0x01 [0x05]))).trace =
      [Event.rx_read 0x05, Event.call (FnPtr.user 1) 0x05, Event.wake 0x50] ∧
    (uart_rx_isr demo_consts demo_app
        (Sys.register (FnPtr.user 1) (demo_sys 0x01 [0x04]))).trace =
      [Event.rx_read 0x04, Event.call (FnPtr.user 1) 0x04] :=
  ⟨⟨by decide, by decide⟩,
    (uart_rx_isr_dispatch demo_consts demo_app
      (Sys.register (FnPtr.user 1) (demo_sys 0x01 [0x05])) (by decide)).2.2.1,
    (uart_rx_isr_dispatch demo_consts demo_app
      (Sys.register (FnPtr.user 1) (demo_sys 0x01 [0x04])) (by decide)).2.2.1⟩

/-- C9: events that are not receive events are ignored.  When `uart_rx_isr` runs
and finds `UCA0RXIFG` clear, whatever `UCB0RXIFG` is, it records no read of the
receive register, no call and no wake request, and it leaves the callback slot,
the pending receive bytes, the memory and the transmit log as they were; only
two reads of `IFG2` have been made. -/
theorem uart_rx_isr_ignores (c : Consts) (app : Nat → Handler) (s : Sys)
    (hrx : (s.m.IFG2 0 % 256) &&& c.UCA0RXIFG = 0) :
    (uart_rx_isr c app s).trace = s.trace ∧
    (uart_rx_isr c app s).m.uart_rx_callback = s.m.uart_rx_callback ∧
    (uart_rx_isr c app s).m.UCA0RXBUF = s.m.UCA0RXBUF ∧
    (uart_rx_isr c app s).m.mem = s.m.mem ∧
    (uart_rx_isr c app s).m.UCA0TXBUF = s.m.UCA0TXBUF ∧
    (uart_rx_isr c app s).m.IFG2 = (fun k => s.m.IFG2 (k + 2)) := by
  rw [uart_rx_isr_other c app s hrx]
  exact ⟨rfl, rfl, rfl, rfl, rfl, rfl⟩

/-- Witness of C9: with a handler registered that would re-register, the routine
run with `IFG2 = UCB0RXIFG` and run with `IFG2 = 0`. -/
theorem uart_rx_isr_ignores_witness :
    (((Sys.register (FnPtr.user 2) (demo_sys 0x04 [0x05])).m.IFG2 0 % 256) &&&
        demo_consts.UCA0RXIFG = 0 ∧
      ((Sys.register (FnPtr.user 2) (demo_sys 0x00 [0x05])).m.IFG2 0 % 256) &&&
        demo_consts.UCA0RXIFG = 0) ∧
    ((uart_rx_isr demo_consts demo_app
        (Sys.register (FnPtr.user 2) (demo_sys 0x04 [0x05]))).trace = [] ∧
      (uart_rx_isr demo_consts demo_app
        (Sys.register (FnPtr.user 2) (demo_sys 0x04 [0x05]))).m.uart_rx_callback =
          FnPtr.user 2) ∧
    ((uart_rx_isr demo_consts demo_app
        (Sys.register (FnPtr.user 2) (demo_sys 0x00 [0x05]))).trace = [] ∧
      (uart_rx_isr demo_consts demo_app
        (Sys.register (FnPtr.user 2) (demo_sys 0x00 [0x05]))).m.uart_rx_callback =
          FnPtr.user 2) :=
  ⟨⟨by decide, by decide⟩,
    ⟨(uart_rx_isr_ignores demo_consts demo_app
        (Sys.register (FnPtr.user 2) (demo_sys 0x04 [0x05])) (by decide)).1,
      (uart_rx_isr_ignores demo_consts demo_app
        (Sys.register (FnPtr.user 2) (demo_sys 0x04 [0x05])) (by decide)).2.1⟩,
    ⟨(uart_rx_isr_ignores demo_consts demo_app
        (Sys.register (FnPtr.user 2) (demo_sys 0x00 [0x05])) (by decide)).1,
      (uart_rx_isr_ignores demo_consts demo_app
        (Sys.register (FnPtr.user 2) (demo_sys 0x00 [0x05])) (by decide)).2.1⟩⟩

theorem calls_of_append (t u : List Event) : calls_of (t ++ u) = calls_of t ++ calls_of u := by
  induction t with
  | nil => rfl
  | cons e t ih => cases e <;> simp [calls_of, ih]

theorem uart_rx_isr_step (c : Consts) (app : Nat → Handler) (s : Sys) (f : FnPtr)
    (hslot : s.m.uart_rx_callback = f)
    (hno : ∀ b m, (call_handler app f b m).2.uart_rx_callback = m.uart_rx_callback) :
    (uart_rx_isr c app s).m.uart_rx_callback = f ∧
    ∃ evs, (uart_rx_isr c app s).trace = s.trace ++ evs ∧
      (∀ g b, (g, b) ∈ calls_of evs → g = f) ∧
      ((s.m.IFG2 0 % 256) &&& c.UCA0RXIFG ≠ 0 →
        calls_of evs = [(f, s.m.UCA0RXBUF 0 % 256)]) := by
  by_cases hrx : (s.m.IFG2 0 % 256) &&& c.UCA0RXIFG ≠ 0
  · rw [uart_rx_isr_receive c app s hrx, hslot]
    refine ⟨by rw [hno]; exact hslot, _, rfl, ?_, ?_⟩
    · intro g b hg
      split at hg <;> simp [calls_of] at hg <;> exact hg.1
    · intro _
      split <;> simp [calls_of]
  · rw [uart_rx_isr_other c app s (not_not.1 hrx)]
    exact ⟨hslot, [], by simp, by simp [calls_of], fun h => absurd h hrx⟩

theorem rx_isr_run_slot (c : Consts) (app : Nat → Handler) (f : FnPtr)
    (hno : ∀ b m, (call_handler app f b m).2.uart_rx_callback = m.uart_rx_callback) :
    ∀ n s, s.m.uart_rx_callback = f →
      (rx_isr_run c app n s).m.uart_rx_callback = f ∧
      ∃ evs, (rx_isr_run c app n s).trace = s.trace ++ evs ∧
        (∀ g b, (g, b) ∈ calls_of evs → g = f) ∧
        (rx_ready_run c app n s = true →
          calls_of evs = (rx_pending c app n s).map (fun b => (f, b))) := by
  intro n
  induction n with
  | zero =>
    intro s hslot
    exact ⟨hslot, [], by simp [rx_isr_run], by simp [calls_of],
      fun _ => by simp [calls_of, rx_pending]⟩
  | succ n ih =>
    intro s hslot
    obtain ⟨h1, evs1, ht1, hc1, hr1⟩ := uart_rx_isr_step c app s f hslot hno
    obtain ⟨h2, evs2, ht2, hc2, hr2⟩ := ih (uart_rx_isr c app s) h1
    refine ⟨h2, evs1 ++ evs2, ?_, ?_, ?_⟩
    · rw [rx_isr_run, ht2, ht1, List.append_assoc]
    · intro g b hg
      rw [calls_of_append, List.mem_append] at hg
      rcases hg with hg | hg
      · exact hc1 g b hg
      · exact hc2 g b hg
    · intro hready
      simp only [rx_ready_run, Bool.and_eq_true, decide_eq_true_eq] at hready
      rw [calls_of_append, hr1 hready.1, hr2 hready.2]
      simp [rx_pending]

theorem rx_isr_run_succ (c : Consts) (app : Nat → Handler) :
    ∀ n s, rx_isr_run c app (n + 1) s = uart_rx_isr c app (rx_isr_run c app n s) := by
  intro n
  induction n with
  | zero => intro s; rfl
  | succ n ih => intro s; rw [rx_isr_run, ih]; rfl

theorem rx_pending_length (c : Consts) (app : Nat → Handler) :
    ∀ n s, (rx_pending c app n s).length = n := by
  intro n
  induction n with
  | zero => intro s; rfl
  | succ n ih => intro s; simp [rx_pending, ih]

theorem rx_pending_stream (c : Consts) (app : Nat → Handler) (f : FnPtr)
    (hno : ∀ b m, (call_handler app f b m).2.uart_rx_callback = m.uart_rx_callback)
    (hbuf : ∀ b m, (call_handler app f b m).2.UCA0RXBUF = m.UCA0RXBUF) :
    ∀ n s, s.m.uart_rx_callback = f → rx_ready_run c app n s = true →
      rx_pending c app n s = (List.range n).map (fun i => s.m.UCA0RXBUF i % 256) := by
  intro n
  induction n with
  | zero => intro s _ _; rfl
  | succ n ih =>
    intro s hslot hready
    simp only [rx_ready_run, Bool.and_eq_true, decide_eq_true_eq] at hready
    have h1 := (uart_rx_isr_step c app s f hslot hno).1
    have e : (uart_rx_isr c app s).m.UCA0RXBUF = fun k => s.m.UCA0RXBUF (k + 1) := by
      rw [uart_rx_isr_receive c app s hready.1, hslot]
      exact hbuf _ _
    rw [rx_pending, ih _ h1 hready.2, e, List.range_succ_eq_map]
    simp [List.map_map, Function.comp_def]

/-- C8: receive ordering.  With a handler in the callback slot that does not
re-register (it returns with the slot as it found it), over `n` interrupts in a
row that are all receive events, the calls the service routine makes are
exactly one call of that handler per interrupt, with the byte that was in the
receive register at that interrupt, in the order of the interrupts.  If the
handler does not itself read the receive register, these bytes are the first
`n` values of the receive register, in order. -/
theorem uart_rx_isr_order (c : Consts) (app : Nat → Handler) (n : Nat) (s : Sys)
    (hno : ∀ b m, (call_handler app s.m.uart_rx_callback b m).2.uart_rx_callback =
      m.uart_rx_callback)
    (hready : rx_ready_run c app n s = true) :
    calls_of ((rx_isr_run c app n s).trace.drop s.trace.length) =
      (rx_pending c app n s).map (fun b => (s.m.uart_rx_callback, b)) ∧
    (rx_pending c app n s).length = n ∧
    ((∀ b m, (call_handler app s.m.uart_rx_callback b m).2.UCA0RXBUF = m.UCA0RXBUF) →
      rx_pending c app n s = (List.range n).map (fun i => s.m.UCA0RXBUF i % 256)) := by
  obtain ⟨-, evs, ht, -, hr⟩ := rx_isr_run_slot c app s.m.uart_rx_callback hno n s rfl
  refine ⟨?_, rx_pending_length c app n s,
    fun hbuf => rx_pending_stream c app _ hno hbuf n s rfl hready⟩
  rw [ht, List.drop_left, hr hready]

/-- Witness of C8: the handler that returns `1` for odd bytes and the bytes
`0x05, 0x04, 0x07`. -/
theorem uart_rx_isr_order_witness :
    ((∀ b m, (call_handler demo_app
          (Sys.register (FnPtr.user 1) (demo_sys 0x01 [0x05, 0x04, 0x07])).m.uart_rx_callback
          b m).2.uart_rx_callback = m.uart_rx_callback) ∧
      rx_ready_run demo_consts demo_app 3
        (Sys.register (FnPtr.user 1) (demo_sys 0x01 [0x05, 0x04, 0x07])) = true) ∧
    calls_of ((rx_isr_run demo_consts demo_app 3
        (Sys.register (FnPtr.user 1) (demo_sys 0x01 [0x05, 0x04, 0x07]))).trace.drop 0) =
      [(FnPtr.user 1, 0x05), (FnPtr.user 1, 0x04), (FnPtr.user 1, 0x07)] ∧
    (rx_isr_run demo_consts demo_app 3
        (Sys.register (FnPtr.user 1) (demo_sys 0x01 [0x05, 0x04, 0x07]))).trace =
      [Event.rx_read 0x05, Event.call (FnPtr.user 1) 0x05, Event.wake 0x50,
        Event.rx_read 0x04, Event.call (FnPtr.user 1) 0x04,
        Event.rx_read 0x07, Event.call (FnPtr.user 1) 0x07, Event.wake 0x50] :=
  ⟨⟨fun _ _ => rfl, rfl⟩,
    (uart_rx_isr_order demo_consts demo_app 3
      (Sys.register (FnPtr.user 1) (demo_sys 0x01 [0x05, 0x04, 0x07]))
      (fun _ _ => rfl) rfl).1,
    rfl⟩

theorem uart_rx_isr_dummy (c : Consts) (app : Nat → Handler) (s : Sys)
    (hslot : s.m.uart_rx_callback = FnPtr.dummy_callback) :
    (uart_rx_isr c app s).m.uart_rx_callback = FnPtr.dummy_callback ∧
    (uart_rx_isr c app s).m.UCA0TXBUF = s.m.UCA0TXBUF ∧
    (uart_rx_isr c app s).m.mem = s.m.mem ∧
    (∃ evs, (uart_rx_isr c app s).trace = s.trace ++ evs ∧
      ∀ e ∈ evs, ∀ bits, e ≠ Event.wake bits) ∧
    ((s.m.IFG2 0 % 256) &&& c.UCA0RXIFG ≠ 0 →
      uart_rx_isr c app s =
        { m := handler_entry s.m,
          trace := s.trace ++ [Event.rx_read (s.m.UCA0RXBUF 0 % 256),
            Event.call FnPtr.dummy_callback (s.m.UCA0RXBUF 0 % 256)] }) := by
  by_cases hrx : (s.m.IFG2 0 % 256) &&& c.UCA0RXIFG ≠ 0
  · have e : uart_rx_isr c app s =
        { m := handler_entry s.m,
          trace := s.trace ++ [Event.rx_read (s.m.UCA0RXBUF 0 % 256),
            Event.call FnPtr.dummy_callback (s.m.UCA0RXBUF 0 % 256)] } := by
      rw [uart_rx_isr_receive c app s hrx, hslot]
      simp [call_handler, dummy_callback]
    rw [e]
    refine ⟨hslot, rfl, rfl, ⟨_, rfl, ?_⟩, fun _ => rfl⟩
    intro e he bits
    simp only [List.mem_cons, List.mem_singleton, List.not_mem_nil, or_false] at he
    rcases he with rfl | rfl <;> simp
  · rw [uart_rx_isr_other c app s (not_not.1 hrx)]
    exact ⟨hslot, rfl, rfl, ⟨[], by simp, by simp⟩, fun h => absurd h hrx⟩

theorem rx_isr_run_dummy (c : Consts) (app : Nat → Handler) :
    ∀ n s, s.m.uart_rx_callback = FnPtr.dummy_callback →
      (rx_isr_run c app n s).m.uart_rx_callback = FnPtr.dummy_callback ∧
      (rx_isr_run c app n s).m.UCA0TXBUF = s.m.UCA0TXBUF ∧
      (rx_isr_run c app n s).m.mem = s.m.mem ∧
      ∃ evs, (rx_isr_run c app n s).trace = s.trace ++ evs ∧
        ∀ e ∈ evs, ∀ bits, e ≠ Event.wake bits := by
  intro n
  induction n with
  | zero => intro s hslot; exact ⟨hslot, rfl, rfl, [], by simp [rx_isr_run], by simp⟩
  | succ n ih =>
    intro s hslot
    obtain ⟨h1, h2, h3, ⟨evs1, ht1, hw1⟩, -⟩ := uart_rx_isr_dummy c app s hslot
    obtain ⟨g1, g2, g3, evs2, ht2, hw2⟩ := ih (uart_rx_isr c app s) h1
    refine ⟨g1, by rw [rx_isr_run, g2, h2], by rw [rx_isr_run, g3, h3], evs1 ++ evs2, ?_, ?_⟩
    · rw [rx_isr_run, ht2, ht1, List.append_assoc]
    · intro e he
      rcases List.mem_append.1 he with h | h
      · exact hw1 e h
      · exact hw2 e h

theorem rx_isr_run_dummy_exact (c : Consts) (app : Nat → Handler) :
    ∀ n s, s.m.uart_rx_callback = FnPtr.dummy_callback →
      (∀ i, i < n → (s.m.IFG2 i % 256) &&& c.UCA0RXIFG ≠ 0) →
      (rx_isr_run c app n s).m =
        { s.m with IFG2 := fun k => s.m.IFG2 (k + n),
                   UCA0RXBUF := fun k => s.m.UCA0RXBUF (k + n) } ∧
      (rx_isr_run c app n s).trace = s.trace ++
        ((List.range n).map (fun i => [Event.rx_read (s.m.UCA0RXBUF i % 256),
          Event.call FnPtr.dummy_callback (s.m.UCA0RXBUF i % 256)])).flatten := by
  intro n
  induction n with
  | zero => intro s _ _; exact ⟨rfl, by simp [rx_isr_run]⟩
  | succ n ih =>
    intro s hslot hrx
    have e := (uart_rx_isr_dummy c app s hslot).2.2.2.2 (hrx 0 (Nat.succ_pos n))
    have hslot1 := (uart_rx_isr_dummy c app s hslot).1
    have hrx1 : ∀ i, i < n → ((uart_rx_isr c app s).m.IFG2 i % 256) &&& c.UCA0RXIFG ≠ 0 := by
      intro i hi
      rw [e]
      exact hrx (i + 1) (by omega)
    obtain ⟨hm, ht⟩ := ih (uart_rx_isr c app s) hslot1 hrx1
    rw [rx_isr_run, hm, ht, e]
    refine ⟨?_, ?_⟩
    · simp only [handler_entry, read_UCA0RXBUF, read_IFG2, Machine.mk.injEq, true_and, and_true]
      exact ⟨funext fun k => by rw [Nat.add_assoc], funext fun k => by rw [Nat.add_assoc]⟩
    · rw [List.range_succ_eq_map]
      simp [handler_entry, read_UCA0RXBUF, read_IFG2, List.map_map, Function.comp_def]

/-- C6: the default handler never wakes.  From any state in which the callback
slot holds `dummy_callback` (the state at program start in particular), after
any number of runs of `uart_rx_isr` no wake request has been recorded, the slot
still holds `dummy_callback`, and the transmit log and the memory are as they
were.  If each run is a receive event, the machine differs from the initial one
only in that one flag read and one byte per run have been consumed, and the
trace records, per run, one read of the receive register and one call of
`dummy_callback` with the byte read. -/
theorem dummy_callback_never_wakes (c : Consts) (app : Nat → Handler) (n : Nat) (s : Sys)
    (hslot : s.m.uart_rx_callback = FnPtr.dummy_callback) :
    (∀ bits, Event.wake bits ∉ (rx_isr_run c app n s).trace.drop s.trace.length) ∧
    (rx_isr_run c app n s).m.uart_rx_callback = FnPtr.dummy_callback ∧
    (rx_isr_run c app n s).m.UCA0TXBUF = s.m.UCA0TXBUF ∧
    (rx_isr_run c app n s).m.mem = s.m.mem ∧
    ((∀ i, i < n → (s.m.IFG2 i % 256) &&& c.UCA0RXIFG ≠ 0) →
      (rx_isr_run c app n s).m =
        { s.m with IFG2 := fun k => s.m.IFG2 (k + n),
                   UCA0RXBUF := fun k => s.m.UCA0RXBUF (k + n) } ∧
      (rx_isr_run c app n s).trace = s.trace ++
        ((List.range n).map (fun i => [Event.rx_read (s.m.UCA0RXBUF i % 256),
          Event.call FnPtr.dummy_callback (s.m.UCA0RXBUF i % 256)])).flatten) := by
  obtain ⟨h1, h2, h3, evs, ht, hw⟩ := rx_isr_run_dummy c app n s hslot
  refine ⟨?_, h1, h2, h3, rx_isr_run_dummy_exact c app n s hslot⟩
  intro bits hmem
  rw [ht, List.drop_left] at hmem
  exact hw _ hmem bits rfl

/-- Witness of C6: three bytes delivered to the system as it is at program
start. -/
theorem dummy_callback_never_wakes_witness :
    (demo_sys 0x01 [0x05, 0x7E, 0xFF]).m.uart_rx_callback = FnPtr.dummy_callback ∧
    ((∀ bits, Event.wake bits ∉
        (rx_isr_run demo_consts demo_app 3 (demo_sys 0x01 [0x05, 0x7E, 0xFF])).trace.drop 0) ∧
      (rx_isr_run demo_consts demo_app 3
        (demo_sys 0x01 [0x05, 0x7E, 0xFF])).m.uart_rx_callback = FnPtr.dummy_callback ∧
      (rx_isr_run demo_consts demo_app 3 (demo_sys 0x01 [0x05, 0x7E, 0xFF])).m.UCA0TXBUF = []) ∧
    (rx_isr_run demo_consts demo_app 3 (demo_sys 0x01 [0x05, 0x7E, 0xFF])).trace =
      [Event.rx_read 0x05, Event.call FnPtr.dummy_callback 0x05,
        Event.rx_read 0x7E, Event.call FnPtr.dummy_callback 0x7E,
        Event.rx_read 0xFF, Event.call FnPtr.dummy_callback 0xFF] :=
  ⟨rfl,
    ⟨(dummy_callback_never_wakes demo_consts demo_app 3
        (demo_sys 0x01 [0x05, 0x7E, 0xFF]) rfl).1,
      (dummy_callback_never_wakes demo_consts demo_app 3
        (demo_sys 0x01 [0x05, 0x7E, 0xFF]) rfl).2.1,
      (dummy_callback_never_wakes demo_consts demo_app 3
        (demo_sys 0x01 [0x05, 0x7E, 0xFF]) rfl).2.2.1⟩,
    ((dummy_callback_never_wakes demo_consts demo_app 3
        (demo_sys 0x01 [0x05, 0x7E, 0xFF]) rfl).2.2.2.2 (fun _ _ => show ((0x01 : Nat) % 256) &&& 0x01 ≠ 0 from by decide)).2⟩

/-- C7 as stated fails: `H1` is the handler at address `1`, `H2` the handler at
address `2`, whose body calls `setup_uart_callback` with `H1`.  After
`setup_uart_callback(H1)` and `setup_uart_callback(H2)` the first dispatch calls
`H2`, the second calls `H1` again, and the wake request then made follows the
value `H1` returned. -/
theorem setup_uart_callback_overwrite_counterexample :
    (rx_isr_run demo_consts demo_app 2
        (Sys.register (FnPtr.user 2) (Sys.register (FnPtr.user 1)
          (demo_sys 0x01 [0x10, 0x11])))).trace =
      [Event.rx_read 0x10, Event.call (FnPtr.user 2) 0x10,
        Event.rx_read 0x11, Event.call (FnPtr.user 1) 0x11, Event.wake 0x50] ∧
    (FnPtr.user 1, 0x11) ∈ calls_of (rx_isr_run demo_consts demo_app 2
        (Sys.register (FnPtr.user 2) (Sys.register (FnPtr.user 1)
          (demo_sys 0x01 [0x10, 0x11])))).trace ∧
    FnPtr.user 1 ≠ FnPtr.user 2 :=
  ⟨rfl, by decide, by decide⟩

/-- C7, amended: registration overwrite for a handler `H2` that does not itself
re-register (it returns with the callback slot as it found it).  After
`setup_uart_callback(H1)` and `setup_uart_callback(H2)` the state is the one
`setup_uart_callback(H2)` alone gives, the registrations have recorded no call
and no wake request, and after any number of runs of `uart_rx_isr` the slot
holds `H2`, every call made was a call of `H2`, and the next receive dispatch
reads the receive register once, calls `H2` once and requests the wake exactly
when the value `H2` returned is nonzero. -/
theorem setup_uart_callback_overwrite (c : Consts) (app : Nat → Handler) (h1 h2 : FnPtr)
    (s : Sys)
    (hno : ∀ b m, (call_handler app h2 b m).2.uart_rx_callback = m.uart_rx_callback) :
    Sys.register h2 (Sys.register h1 s) = Sys.register h2 s ∧
    (Sys.register h2 (Sys.register h1 s)).m = { s.m with uart_rx_callback := h2 } ∧
    (Sys.register h2 (Sys.register h1 s)).trace = s.trace ∧
    ∀ n,
      (rx_isr_run c app n (Sys.register h2 (Sys.register h1 s))).m.uart_rx_callback = h2 ∧
      (∀ g b, (g, b) ∈ calls_of ((rx_isr_run c app n
          (Sys.register h2 (Sys.register h1 s))).trace.drop s.trace.length) → g = h2) ∧
      (((rx_isr_run c app n (Sys.register h2 (Sys.register h1 s))).m.IFG2 0 % 256) &&&
          c.UCA0RXIFG ≠ 0 →
        (rx_isr_run c app (n + 1) (Sys.register h2 (Sys.register h1 s))).trace =
          (rx_isr_run c app n (Sys.register h2 (Sys.register h1 s))).trace ++
            ([Event.rx_read
                ((rx_isr_run c app n (Sys.register h2 (Sys.register h1 s))).m.UCA0RXBUF 0 % 256),
              Event.call h2
                ((rx_isr_run c app n (Sys.register h2 (Sys.register h1 s))).m.UCA0RXBUF 0 % 256)] ++
            if (call_handler app h2
                ((rx_isr_run c app n (Sys.register h2 (Sys.register h1 s))).m.UCA0RXBUF 0 % 256)
                (handler_entry (rx_isr_run c app n
                  (Sys.register h2 (Sys.register h1 s))).m)).1 % 256 ≠ 0
            then [Event.wake c.LPM1_bits] else [])) := by
  refine ⟨rfl, rfl, rfl, ?_⟩
  intro n
  obtain ⟨hs, evs, ht, hc, -⟩ :=
    rx_isr_run_slot c app h2 hno n (Sys.register h2 (Sys.register h1 s)) rfl
  refine ⟨hs, ?_, ?_⟩
  · intro g b hg
    have e : (Sys.register h2 (Sys.register h1 s)).trace = s.trace := rfl
    rw [ht, e, List.drop_left] at hg
    exact hc g b hg
  · intro hrx
    rw [rx_isr_run_succ, uart_rx_isr_receive c app _ hrx, hs]

/-- Witness of the amended C7: `H1` is the handler that re-registers, `H2` the
handler that returns `1` for odd bytes. -/
theorem setup_uart_callback_overwrite_witness :
    (∀ b m, (call_handler demo_app (FnPtr.user 1) b m).2.uart_rx_callback =
      m.uart_rx_callback) ∧
    ((rx_isr_run demo_consts demo_app 2
        (Sys.register (FnPtr.user 1) (Sys.register (FnPtr.user 2)
          (demo_sys 0x01 [0x05, 0x04])))).m.uart_rx_callback = FnPtr.user 1 ∧
      (∀ g b, (g, b) ∈ calls_of ((rx_isr_run demo_consts demo_app 2
          (Sys.register (FnPtr.user 1) (Sys.register (FnPtr.user 2)
            (demo_sys 0x01 [0x05, 0x04])))).trace.drop 0) → g = FnPtr.user 1)) ∧
    (rx_isr_run demo_consts demo_app 2
        (Sys.register (FnPtr.user 1) (Sys.register (FnPtr.user 2)
          (demo_sys 0x01 [0x05, 0x04])))).trace =
      [Event.rx_read 0x05, Event.call (FnPtr.user 1) 0x05, Event.wake 0x50,
        Event.rx_read 0x04, Event.call (FnPtr.user 1) 0x04] :=
  ⟨fun _ _ => rfl,
    ⟨((setup_uart_callback_overwrite demo_consts demo_app (FnPtr.user 2) (FnPtr.user 1)
        (demo_sys 0x01 [0x05, 0x04]) (fun _ _ => rfl)).2.2.2 2).1,
      ((setup_uart_callback_overwrite demo_consts demo_app (FnPtr.user 2) (FnPtr.user 1)
        (demo_sys 0x01 [0x05, 0x04]) (fun _ _ => rfl)).2.2.2 2).2.1⟩,
    rfl⟩

/-! ## Concrete frames -/

theorem uart_write_escaped_zero_some (c : Consts) (fuel buffer : Nat) (s s' : Machine)
    (hsync : c.SYNC_BYTE < 256) (h : uart_write_escaped c fuel buffer 0 s = some s') :
    ∃ k, s' = s.after k [c.SYNC_BYTE, c.SYNC_BYTE] := by
  unfold uart_write_escaped at h
  cases h1 : tx_ready_wait c fuel s with
  | none => simp [h1] at h
  | some s1 =>
    obtain ⟨k1, rfl⟩ := tx_ready_wait_some c _ _ _ h1
    simp only [h1, Nat.zero_mod] at h
    cases fuel with
    | zero => simp [tx_ready_wait] at h1
    | succ f =>
      rw [uart_write_escaped_loop, if_neg (Nat.lt_irrefl 0)] at h
      simp only at h
      cases h3 : tx_ready_wait c (f + 1) (write_UCA0TXBUF c.SYNC_BYTE (s.after k1 [])) with
      | none => simp [h3] at h
      | some s3 =>
        obtain ⟨k3, rfl⟩ := tx_ready_wait_some c _ _ _ h3
        simp only [h3] at h
        refine ⟨k1 + 0 + k3 + 0, ?_⟩
        rw [← Option.some.inj h]
        simp only [write_UCA0TXBUF_eq, Machine.after_after, Nat.mod_eq_of_lt hsync,
          List.nil_append, List.append_nil, List.singleton_append]

theorem uart_write_escaped_zero_total (c : Consts) (buffer : Nat) (s : Machine)
    (hsync : c.SYNC_BYTE < 256) (hr : TxReady c s) :
    ∃ k f0, ∀ fuel, f0 ≤ fuel →
      uart_write_escaped c fuel buffer 0 s = some (s.after k [c.SYNC_BYTE, c.SYNC_BYTE]) := by
  obtain ⟨k1, f1, h1⟩ := tx_ready_wait_total hr
  obtain ⟨k3, f3, h3⟩ := tx_ready_wait_total ((hr.after k1 []).after 0 [c.SYNC_BYTE % 256])
  refine ⟨k1 + 0 + k3 + 0, max 1 (max f1 f3), ?_⟩
  intro fuel hf
  obtain ⟨f, rfl⟩ : ∃ f, fuel = f + 1 := ⟨fuel - 1, by omega⟩
  have e1 := h1 (f + 1) (by omega)
  have e3 := h3 (f + 1) (by omega)
  unfold uart_write_escaped
  rw [e1]
  simp only [Nat.zero_mod, write_UCA0TXBUF_eq]
  rw [uart_write_escaped_loop, if_neg (Nat.lt_irrefl 0)]
  simp only [e3]
  simp only [Machine.after_after, Nat.mod_eq_of_lt hsync, List.nil_append, List.append_nil,
    List.singleton_append]

/-- C11: empty frame.  Called with length `0`, for any buffer pointer and any
memory contents, on a transmitter that becomes ready again and again,
`uart_write_escaped` returns once the bound on its loops is large enough, and
whenever it returns it has appended exactly the two bytes `SYNC, SYNC` to the
transmit log. -/
theorem uart_write_escaped_empty (c : Consts) (buffer : Nat) (s : Machine)
    (hsync : c.SYNC_BYTE < 256) (hr : TxReady c s) :
    (∃ f0, ∀ fuel, f0 ≤ fuel → ∃ s', uart_write_escaped c fuel buffer 0 s = some s') ∧
    (∀ fuel s', uart_write_escaped c fuel buffer 0 s = some s' →
      s'.UCA0TXBUF = s.UCA0TXBUF ++ [c.SYNC_BYTE, c.SYNC_BYTE]) := by
  constructor
  · obtain ⟨k, f0, h⟩ := uart_write_escaped_zero_total c buffer s hsync hr
    exact ⟨f0, fun fuel hf => ⟨_, h fuel hf⟩⟩
  · intro fuel s' h
    obtain ⟨k, rfl⟩ := uart_write_escaped_zero_some c fuel buffer s s' hsync h
    rfl

/-- Witness of C11: length `0` with the buffer pointer at reserved bytes. -/
theorem uart_write_escaped_empty_witness :
    (demo_consts.SYNC_BYTE < 256 ∧ TxReady demo_consts (demo_machine [0x7E, 0x7D])) ∧
    ((∃ f0, ∀ fuel, f0 ≤ fuel → ∃ s', uart_write_escaped demo_consts fuel 0 0
        (demo_machine [0x7E, 0x7D]) = some s') ∧
      (∀ fuel s', uart_write_escaped demo_consts fuel 0 0
          (demo_machine [0x7E, 0x7D]) = some s' → s'.UCA0TXBUF = [] ++ [0x7E, 0x7E])) ∧
    (uart_write_escaped demo_consts 2 0 0 (demo_machine [0x7E, 0x7D])).map
      Machine.UCA0TXBUF = some [0x7E, 0x7E] :=
  ⟨⟨by decide, demo_machine_ready _⟩,
    uart_write_escaped_empty demo_consts 0 _ (by decide) (demo_machine_ready _), rfl⟩

/-- C12: concrete frame.  With the three bytes `0x41, SYNC, 0x42` in the
buffer, `0x41` and `0x42` being neither `SYNC` nor `ESCAPE`, on a transmitter
that becomes ready again and again, `uart_write_escaped` returns once the bound
on its loops is large enough, and whenever it returns it has appended exactly
the six bytes `SYNC, 0x41, ESCAPE, SYNC xor 0x20, 0x42, SYNC`. -/
theorem uart_write_escaped_scenario (c : Consts) (buffer : Nat) (s : Machine)
    (hsync : c.SYNC_BYTE < 256) (hesc : c.ESCAPE_BYTE < 256) (hr : TxReady c s)
    (h41 : 0x41 ≠ c.SYNC_BYTE ∧ 0x41 ≠ c.ESCAPE_BYTE)
    (h42 : 0x42 ≠ c.SYNC_BYTE ∧ 0x42 ≠ c.ESCAPE_BYTE)
    (hB : buffer_bytes s buffer 3 = [0x41, c.SYNC_BYTE, 0x42]) :
    (∃ f0, ∀ fuel, f0 ≤ fuel → ∃ s', uart_write_escaped c fuel buffer 3 s = some s') ∧
    (∀ fuel s', uart_write_escaped c fuel buffer 3 s = some s' →
      s'.UCA0TXBUF = s.UCA0TXBUF ++
        [c.SYNC_BYTE, 0x41, c.ESCAPE_BYTE, c.SYNC_BYTE ^^^ 0x20, 0x42, c.SYNC_BYTE]) := by
  refine ⟨(uart_write_escaped_emits c buffer 3 s (by decide) hsync hesc hr).1, ?_⟩
  intro fuel s' h
  obtain ⟨k, rfl⟩ := uart_write_escaped_some c fuel buffer 3 s s' (by decide) hsync hesc h
  rw [hB]
  simp [Machine.after, frame, escape_payload, escape_transform, h41.1, h41.2, h42.1, h42.2]

/-- Witness of C12: `SYNC = 0x7E`, `ESCAPE = 0x7D`. -/
theorem uart_write_escaped_scenario_witness :
    (demo_consts.SYNC_BYTE < 256 ∧ demo_consts.ESCAPE_BYTE < 256 ∧
      TxReady demo_consts (demo_machine [0x41, 0x7E, 0x42]) ∧
      (0x41 ≠ demo_consts.SYNC_BYTE ∧ 0x41 ≠ demo_consts.ESCAPE_BYTE) ∧
      (0x42 ≠ demo_consts.SYNC_BYTE ∧ 0x42 ≠ demo_consts.ESCAPE_BYTE) ∧
      buffer_bytes (demo_machine [0x41, 0x7E, 0x42]) 0 3 =
        [0x41, demo_consts.SYNC_BYTE, 0x42]) ∧
    ((∃ f0, ∀ fuel, f0 ≤ fuel → ∃ s', uart_write_escaped demo_consts fuel 0 3
        (demo_machine [0x41, 0x7E, 0x42]) = some s') ∧
      (∀ fuel s', uart_write_escaped demo_consts fuel 0 3
          (demo_machine [0x41, 0x7E, 0x42]) = some s' →
        s'.UCA0TXBUF = [] ++ [0x7E, 0x41, 0x7D, 0x7E ^^^ 0x20, 0x42, 0x7E])) ∧
    (uart_write_escaped demo_consts 4 0 3 (demo_machine [0x41, 0x7E, 0x42])).map
      Machine.UCA0TXBUF = some [0x7E, 0x41, 0x7D, 0x5E, 0x42, 0x7E] :=
  ⟨⟨by decide, by decide, demo_machine_ready _, by decide, by decide, by decide⟩,
    uart_write_escaped_scenario demo_consts 0 _ (by decide) (by decide)
      (demo_machine_ready _) (by decide) (by decide) (by decide),
    rfl⟩

/-! ## Frame effect, frame length, framed against raw -/

theorem Machine.after_frame (s : Machine) (k : Nat) (o : List Nat) :
    (s.after k o).mem = s.mem ∧ (s.after k o).uart_rx_callback = s.uart_rx_callback ∧
    (s.after k o).UCA0RXBUF = s.UCA0RXBUF ∧ (s.after k o).IFG2 = (fun j => s.IFG2 (j + k)) ∧
    (s.after k o).UCA0TXBUF = s.UCA0TXBUF ++ o :=
  ⟨rfl, rfl, rfl, rfl, rfl⟩

/-- C15: the transmit operations only read their input.  Whenever
`uart_write_escaped` or `uart_write` returns, the memory (so every byte of the
buffer) and the callback slot are as before, and so are the pending receive
bytes; the machine differs only by the bytes appended to the transmit log and
by the reads of `IFG2` the busy waits have made.  Both return once the bound on
their loops is large enough. -/
theorem transmit_reads_only (c : Consts) (buffer length : Nat) (s : Machine)
    (hlen : length < 65536) (hsync : c.SYNC_BYTE < 256) (hesc : c.ESCAPE_BYTE < 256)
    (hr : TxReady c s) :
    ((∃ f0, ∀ fuel, f0 ≤ fuel → ∃ s', uart_write_escaped c fuel buffer length s = some s') ∧
      ∀ fuel s', uart_write_escaped c fuel buffer length s = some s' →
        s'.mem = s.mem ∧ buffer_bytes s' buffer length = buffer_bytes s buffer length ∧
        s'.uart_rx_callback = s.uart_rx_callback ∧ s'.UCA0RXBUF = s.UCA0RXBUF ∧
        ∃ k out, s'.IFG2 = (fun j => s.IFG2 (j + k)) ∧ s'.UCA0TXBUF = s.UCA0TXBUF ++ out) ∧
    ((∃ f0, ∀ fuel, f0 ≤ fuel → ∃ s', uart_write c fuel buffer length s = some s') ∧
      ∀ fuel s', uart_write c fuel buffer length s = some s' →
        s'.mem = s.mem ∧ buffer_bytes s' buffer length = buffer_bytes s buffer length ∧
        s'.uart_rx_callback = s.uart_rx_callback ∧ s'.UCA0RXBUF = s.UCA0RXBUF ∧
        ∃ k out, s'.IFG2 = (fun j => s.IFG2 (j + k)) ∧ s'.UCA0TXBUF = s.UCA0TXBUF ++ out) := by
  refine ⟨⟨(uart_write_escaped_emits c buffer length s hlen hsync hesc hr).1, ?_⟩, ⟨?_, ?_⟩⟩
  · intro fuel s' h
    obtain ⟨k, rfl⟩ := uart_write_escaped_some c fuel buffer length s s' hlen hsync hesc h
    exact ⟨rfl, buffer_bytes_after s k _ length buffer, rfl, rfl, k, _, rfl, rfl⟩
  · obtain ⟨k, f0, h⟩ := uart_write_total c buffer length s hlen hr
    exact ⟨f0, fun fuel hf => ⟨_, h fuel hf⟩⟩
  · intro fuel s' h
    obtain ⟨k, rfl⟩ := uart_write_some c fuel buffer length s s' hlen h
    exact ⟨rfl, buffer_bytes_after s k _ length buffer, rfl, rfl, k, _, rfl, rfl⟩

/-- Witness of C15: a buffer with reserved bytes and a handler registered. -/
theorem transmit_reads_only_witness :
    (3 < 65536 ∧ demo_consts.SYNC_BYTE < 256 ∧ demo_consts.ESCAPE_BYTE < 256 ∧
      TxReady demo_consts
        (setup_uart_callback (FnPtr.user 1) (demo_machine [0x7E, 0x41, 0x7D]))) ∧
    (∀ fuel s', uart_write_escaped demo_consts fuel 0 3
        (setup_uart_callback (FnPtr.user 1) (demo_machine [0x7E, 0x41, 0x7D])) = some s' →
      buffer_bytes s' 0 3 = [0x7E, 0x41, 0x7D] ∧ s'.uart_rx_callback = FnPtr.user 1) ∧
    (∀ fuel s', uart_write demo_consts fuel 0 3
        (setup_uart_callback (FnPtr.user 1) (demo_machine [0x7E, 0x41, 0x7D])) = some s' →
      buffer_bytes s' 0 3 = [0x7E, 0x41, 0x7D] ∧ s'.uart_rx_callback = FnPtr.user 1) ∧
    (uart_write_escaped demo_consts 4 0 3
        (setup_uart_callback (FnPtr.user 1) (demo_machine [0x7E, 0x41, 0x7D]))).map
      (fun m => (buffer_bytes m 0 3, m.uart_rx_callback)) =
        some ([0x7E, 0x41, 0x7D], FnPtr.user 1) :=
  ⟨⟨by decide, by decide, by decide, fun k => demo_machine_ready [0x7E, 0x41, 0x7D] k⟩,
    fun fuel s' h =>
      ⟨((transmit_reads_only demo_consts 0 3
          (setup_uart_callback (FnPtr.user 1) (demo_machine [0x7E, 0x41, 0x7D]))
          (by decide) (by decide) (by decide)
          (fun k => demo_machine_ready [0x7E, 0x41, 0x7D] k)).1.2 fuel s' h).2.1,
        ((transmit_reads_only demo_consts 0 3
          (setup_uart_callback (FnPtr.user 1) (demo_machine [0x7E, 0x41, 0x7D]))
          (by decide) (by decide) (by decide)
          (fun k => demo_machine_ready [0x7E, 0x41, 0x7D] k)).1.2 fuel s' h).2.2.1⟩,
    fun fuel s' h =>
      ⟨((transmit_reads_only demo_consts 0 3
          (setup_uart_callback (FnPtr.user 1) (demo_machine [0x7E, 0x41, 0x7D]))
          (by decide) (by decide) (by decide)
          (fun k => demo_machine_ready [0x7E, 0x41, 0x7D] k)).2.2 fuel s' h).2.1,
        ((transmit_reads_only demo_consts 0 3
          (setup_uart_callback (FnPtr.user 1) (demo_machine [0x7E, 0x41, 0x7D]))
          (by decide) (by decide) (by decide)
          (fun k => demo_machine_ready [0x7E, 0x41, 0x7D] k)).2.2 fuel s' h).2.2.1⟩,
    rfl⟩

theorem escape_transform_length (c : Consts) (b : Nat) :
    (escape_transform c b).length =
      1 + if b = c.SYNC_BYTE ∨ b = c.ESCAPE_BYTE then 1 else 0 := by
  unfold escape_transform
  split <;> rfl

theorem escape_payload_length (c : Consts) (B : List Nat) :
    (escape_payload c B).length =
      B.length + B.countP (fun b => decide (b = c.SYNC_BYTE ∨ b = c.ESCAPE_BYTE)) := by
  induction B with
  | nil => rfl
  | cons b bs ih =>
    rw [escape_payload, List.length_append, ih, escape_transform_length, List.countP_cons,
      List.length_cons]
    by_cases h : b = c.SYNC_BYTE ∨ b = c.ESCAPE_BYTE
    · simp only [if_pos h, decide_eq_true h, if_true]; omega
    · simp only [if_neg h, decide_eq_false h, Bool.false_eq_true, if_false]; omega

/-- C16: frame length.  The frame `uart_write_escaped` emits for a buffer of
`length` bytes has `length + 2 + r` bytes, `r` being the number of buffer bytes
equal to `SYNC` or `ESCAPE`; so it has at least `length + 2` and at most
`2 * length + 2` bytes, and exactly `2 * length + 2` if and only if every
buffer byte is `SYNC` or `ESCAPE`. -/
theorem uart_write_escaped_length (c : Consts) (buffer length : Nat) (s : Machine)
    (hlen : length < 65536) (hsync : c.SYNC_BYTE < 256) (hesc : c.ESCAPE_BYTE < 256)
    (hr : TxReady c s) :
    (∃ f0, ∀ fuel, f0 ≤ fuel → ∃ s', uart_write_escaped c fuel buffer length s = some s') ∧
    (∀ fuel s', uart_write_escaped c fuel buffer length s = some s' →
      (s'.UCA0TXBUF.drop s.UCA0TXBUF.length).length = length + 2 +
        (buffer_bytes s buffer length).countP
          (fun b => decide (b = c.SYNC_BYTE ∨ b = c.ESCAPE_BYTE)) ∧
      length + 2 ≤ (s'.UCA0TXBUF.drop s.UCA0TXBUF.length).length ∧
      (s'.UCA0TXBUF.drop s.UCA0TXBUF.length).length ≤ 2 * length + 2 ∧
      ((s'.UCA0TXBUF.drop s.UCA0TXBUF.length).length = 2 * length + 2 ↔
        ∀ b ∈ buffer_bytes s buffer length, b = c.SYNC_BYTE ∨ b = c.ESCAPE_BYTE)) := by
  obtain ⟨h1, h2⟩ := uart_write_escaped_emits c buffer length s hlen hsync hesc hr
  refine ⟨h1, ?_⟩
  intro fuel s' h
  have hB := buffer_bytes_length s length buffer
  have hle := List.countP_le_length
    (fun b => decide (b = c.SYNC_BYTE ∨ b = c.ESCAPE_BYTE)) (l := buffer_bytes s buffer length)
  have hall := List.countP_eq_length
    (p := fun b => decide (b = c.SYNC_BYTE ∨ b = c.ESCAPE_BYTE))
    (l := buffer_bytes s buffer length)
  rw [h2 fuel s' h, frame_length, escape_payload_length, hB]
  rw [hB] at hle hall
  refine ⟨by omega, by omega, by omega, ?_⟩
  constructor
  · intro e
    have e2 : (buffer_bytes s buffer length).countP
        (fun b => decide (b = c.SYNC_BYTE ∨ b = c.ESCAPE_BYTE)) = length := by omega
    intro b hb
    simpa using hall.1 e2 b hb
  · intro hres
    have e2 : (buffer_bytes s buffer length).countP
        (fun b => decide (b = c.SYNC_BYTE ∨ b = c.ESCAPE_BYTE)) = length :=
      hall.2 (fun b hb => by simpa using hres b hb)
    omega

/-- Witness of C16: three bytes, two of them reserved, give `3 + 2 + 2` bytes. -/
theorem uart_write_escaped_length_witness :
    (3 < 65536 ∧ demo_consts.SYNC_BYTE < 256 ∧ demo_consts.ESCAPE_BYTE < 256 ∧
      TxReady demo_consts (demo_machine [0x7E, 0x41, 0x7D])) ∧
    (∀ fuel s', uart_write_escaped demo_consts fuel 0 3
        (demo_machine [0x7E, 0x41, 0x7D]) = some s' →
      (s'.UCA0TXBUF.drop 0).length = 3 + 2 + 2) ∧
    (uart_write_escaped demo_consts 4 0 3 (demo_machine [0x7E, 0x41, 0x7D])).map
      (fun m => m.UCA0TXBUF.length) = some 7 :=
  ⟨⟨by decide, by decide, by decide, demo_machine_ready _⟩,
    fun fuel s' h =>
      ((uart_write_escaped_length demo_consts 0 3 (demo_machine [0x7E, 0x41, 0x7D])
        (by decide) (by decide) (by decide) (demo_machine_ready _)).2 fuel s' h).1,
    rfl⟩

theorem escape_payload_unreserved (c : Consts) (B : List Nat)
    (h : ∀ b ∈ B, b ≠ c.SYNC_BYTE ∧ b ≠ c.ESCAPE_BYTE) : escape_payload c B = B := by
  induction B with
  | nil => rfl
  | cons b bs ih =>
    have hb := h b (List.mem_cons_self b bs)
    have hres : ¬ (b = c.SYNC_BYTE ∨ b = c.ESCAPE_BYTE) := fun e => e.elim hb.1 hb.2
    rw [escape_payload, escape_transform, if_neg hres,
      ih (fun x hx => h x (List.mem_cons_of_mem b hx))]
    rfl

theorem escape_payload_reserved (c : Consts) (B : List Nat)
    (h : ∃ b ∈ B, b = c.SYNC_BYTE ∨ b = c.ESCAPE_BYTE) : escape_payload c B ≠ B := by
  intro e
  have hl := escape_payload_length c B
  rw [e] at hl
  obtain ⟨b, hb, hres⟩ := h
  have hpos : 0 < B.countP (fun b => decide (b = c.SYNC_BYTE ∨ b = c.ESCAPE_BYTE)) :=
    List.countP_pos_iff.2 ⟨b, hb, by simpa using hres⟩
  omega

/-- C17: framed and raw writers against each other.  For the same buffer and
the same starting machine, if no buffer byte is `SYNC` or `ESCAPE` the bytes
`uart_write_escaped` emits are `SYNC`, then the bytes `uart_write` emits, then
`SYNC`; if some buffer byte is `SYNC` or `ESCAPE`, the bytes between the two
delimiters differ from the bytes `uart_write` emits.  Both return once the
bound on their loops is large enough. -/
theorem framed_against_raw (c : Consts) (buffer length : Nat) (s : Machine)
    (hlen : length < 65536) (hsync : c.SYNC_BYTE < 256) (hesc : c.ESCAPE_BYTE < 256)
    (hr : TxReady c s) :
    (∃ f0, ∀ fuel, f0 ≤ fuel → ∃ s1 s2,
      uart_write_escaped c fuel buffer length s = some s1 ∧
      uart_write c fuel buffer length s = some s2) ∧
    (∀ fuel1 fuel2 s1 s2, uart_write_escaped c fuel1 buffer length s = some s1 →
      uart_write c fuel2 buffer length s = some s2 →
      ((∀ b ∈ buffer_bytes s buffer length, b ≠ c.SYNC_BYTE ∧ b ≠ c.ESCAPE_BYTE) →
        s1.UCA0TXBUF.drop s.UCA0TXBUF.length =
          [c.SYNC_BYTE] ++ s2.UCA0TXBUF.drop s.UCA0TXBUF.length ++ [c.SYNC_BYTE]) ∧
      ((∃ b ∈ buffer_bytes s buffer length, b = c.SYNC_BYTE ∨ b = c.ESCAPE_BYTE) →
        (s1.UCA0TXBUF.drop s.UCA0TXBUF.length).tail.dropLast ≠
          s2.UCA0TXBUF.drop s.UCA0TXBUF.length)) := by
  constructor
  · obtain ⟨k1, f1, h1⟩ := uart_write_escaped_total c buffer length s hlen hsync hesc hr
    obtain ⟨k2, f2, h2⟩ := uart_write_total c buffer length s hlen hr
    exact ⟨max f1 f2, fun fuel hf =>
      ⟨_, _, h1 fuel (le_trans (le_max_left _ _) hf), h2 fuel (le_trans (le_max_right _ _) hf)⟩⟩
  · intro fuel1 fuel2 s1 s2 e1 e2
    obtain ⟨k1, rfl⟩ := uart_write_escaped_some c fuel1 buffer length s s1 hlen hsync hesc e1
    obtain ⟨k2, rfl⟩ := uart_write_some c fuel2 buffer length s s2 hlen e2
    rw [emitted_after, emitted_after]
    constructor
    · intro h
      simp [frame, escape_payload_unreserved c _ h]
    · intro h
      simpa [frame, List.dropLast_concat] using escape_payload_reserved c _ h

/-- Witness of C17: the unreserved payload `0x41, 0x42, 0x43`, and the payload
`0x41, 0x7E` with one reserved byte. -/
theorem framed_against_raw_witness :
    (3 < 65536 ∧ 2 < 65536 ∧ demo_consts.SYNC_BYTE < 256 ∧ demo_consts.ESCAPE_BYTE < 256 ∧
      TxReady demo_consts (demo_machine [0x41, 0x42, 0x43]) ∧
      TxReady demo_consts (demo_machine [0x41, 0x7E])) ∧
    (∀ fuel1 fuel2 s1 s2,
      uart_write_escaped demo_consts fuel1 0 3 (demo_machine [0x41, 0x42, 0x43]) = some s1 →
      uart_write demo_consts fuel2 0 3 (demo_machine [0x41, 0x42, 0x43]) = some s2 →
      s1.UCA0TXBUF.drop 0 = [0x7E] ++ s2.UCA0TXBUF.drop 0 ++ [0x7E]) ∧
    (∀ fuel1 fuel2 s1 s2,
      uart_write_escaped demo_consts fuel1 0 2 (demo_machine [0x41, 0x7E]) = some s1 →
      uart_write demo_consts fuel2 0 2 (demo_machine [0x41, 0x7E]) = some s2 →
      (s1.UCA0TXBUF.drop 0).tail.dropLast ≠ s2.UCA0TXBUF.drop 0) ∧
    ((uart_write_escaped demo_consts 4 0 3 (demo_machine [0x41, 0x42, 0x43])).map
        Machine.UCA0TXBUF = some [0x7E, 0x41, 0x42, 0x43, 0x7E] ∧
      (uart_write demo_consts 4 0 3 (demo_machine [0x41, 0x42, 0x43])).map
        Machine.UCA0TXBUF = some [0x41, 0x42, 0x43] ∧
      (uart_write_escaped demo_consts 3 0 2 (demo_machine [0x41, 0x7E])).map
        Machine.UCA0TXBUF = some [0x7E, 0x41, 0x7D, 0x5E, 0x7E] ∧
      (uart_write demo_consts 3 0 2 (demo_machine [0x41, 0x7E])).map
        Machine.UCA0TXBUF = some [0x41, 0x7E]) :=
  ⟨⟨by decide, by decide, by decide, by decide, demo_machine_ready _, demo_machine_ready _⟩,
    fun fuel1 fuel2 s1 s2 e1 e2 =>
      ((framed_against_raw demo_consts 0 3 (demo_machine [0x41, 0x42, 0x43])
        (by decide) (by decide) (by decide) (demo_machine_ready _)).2
          fuel1 fuel2 s1 s2 e1 e2).1 (by decide),
    fun fuel1 fuel2 s1 s2 e1 e2 =>
      ((framed_against_raw demo_consts 0 2 (demo_machine [0x41, 0x7E])
        (by decide) (by decide) (by decide) (demo_machine_ready _)).2
          fuel1 fuel2 s1 s2 e1 e2).2 (by decide),
    ⟨rfl, rfl, rfl, rfl⟩⟩

/-! ## The hexadecimal helper -/

set_option maxRecDepth 20000 in
theorem hex_char_high : ∀ b, b < 256 → hex_char.getD ((b >>> 4) &&& 0xF) 0 = hex_digit (b / 16) := by
  decide

set_option maxRecDepth 20000 in
theorem hex_char_low : ∀ b, b < 256 → hex_char.getD (b &&& 0xF) 0 = hex_digit (b % 16) := by
  decide

theorem hex_digit_lt : ∀ d, d < 16 → hex_digit d < 256 := by
  decide

theorem load8_store8_ne (s : Machine) (a b v : Nat) (h : a ≠ b) :
    load8 (store8 s b v) a = load8 s a := by
  simp [load8, store8, h]

theorem load8_store8_eq (s : Machine) (a v : Nat) : load8 (store8 s a v) a = v % 256 := by
  simp [load8, store8]

theorem load8_congr (s t : Machine) (a : Nat) (h : s.mem a = t.mem a) :
    load8 s a = load8 t a := by
  simp [load8, h]

theorem hex_to_string_loop_small (buffer_out buffer_in n : Nat) (s : Machine) (hn : n ≤ 127)
    (hsep : ∀ i j, i < n → j ≤ 2 * i → buffer_out + j ≠ buffer_in + i) :
    ∀ k i (cur : Machine), i + k = n →
      (∀ t, i ≤ t → t < n → load8 cur (buffer_in + t) = load8 s (buffer_in + t)) →
      ∃ s2 : Machine,
        (∀ fuel, k + 1 ≤ fuel →
          hex_to_string_loop buffer_out buffer_in n fuel (2 * i) cur = some (2 * n, s2)) ∧
        (∀ fuel, fuel ≤ k →
          hex_to_string_loop buffer_out buffer_in n fuel (2 * i) cur = none) ∧
        (∀ a, a < buffer_out + 2 * i ∨ buffer_out + 2 * n ≤ a → s2.mem a = cur.mem a) ∧
        (∀ t, i ≤ t → t < n →
          load8 s2 (buffer_out + 2 * t) = hex_digit (load8 s (buffer_in + t) / 16) ∧
          load8 s2 (buffer_out + (2 * t + 1)) = hex_digit (load8 s (buffer_in + t) % 16)) ∧
        { s2 with mem := cur.mem } = cur := by
  intro k
  induction k with
  | zero =>
    intro i cur hi _
    have hin : i = n := by omega
    subst hin
    refine ⟨cur, ?_, ?_, fun _ _ => rfl, fun t h1 h2 => by omega, rfl⟩
    · intro fuel hf
      obtain ⟨f, rfl⟩ : ∃ f, fuel = f + 1 := ⟨fuel - 1, by omega⟩
      rw [hex_to_string_loop, if_neg (by omega)]
    · intro fuel hf
      have : fuel = 0 := by omega
      subst this
      rfl
  | succ k ih =>
    intro i cur hi hin
    have hlt : 2 * i < n * 2 := by omega
    have hc1 : (2 * i + 1) % 256 = 2 * i + 1 := Nat.mod_eq_of_lt (by omega)
    have hc2 : (2 * i + 1 + 1) % 256 = 2 * (i + 1) := by
      rw [Nat.mod_eq_of_lt (by omega)]; omega
    have e1 : (2 * i) >>> 1 = i := by rw [Nat.shiftRight_eq_div_pow]; omega
    have e2 : (2 * i + 1) >>> 1 = i := by rw [Nat.shiftRight_eq_div_pow]; omega
    have hb : load8 s (buffer_in + i) < 256 := load8_lt s _
    have hhi : hex_digit (load8 s (buffer_in + i) / 16) < 256 := hex_digit_lt _ (by omega)
    have hlo : hex_digit (load8 s (buffer_in + i) % 16) < 256 := hex_digit_lt _ (by omega)
    have hcur : load8 cur (buffer_in + i) = load8 s (buffer_in + i) :=
      hin i (Nat.le_refl i) (by omega)
    have hne0 : buffer_in + i ≠ buffer_out + 2 * i :=
      fun e => hsep i (2 * i) (by omega) (Nat.le_refl _) e.symm
    have hin2 : ∀ t, i + 1 ≤ t → t < n →
        load8 (store8 (store8 cur (buffer_out + 2 * i)
            (hex_digit (load8 s (buffer_in + i) / 16))) (buffer_out + (2 * i + 1))
            (hex_digit (load8 s (buffer_in + i) % 16))) (buffer_in + t) =
          load8 s (buffer_in + t) := by
      intro t ht1 ht2
      rw [load8_store8_ne _ _ _ _ (fun e => hsep t (2 * i + 1) ht2 (by omega) e.symm),
        load8_store8_ne _ _ _ _ (fun e => hsep t (2 * i) ht2 (by omega) e.symm)]
      exact hin t (by omega) ht2
    obtain ⟨s2, h1, h2, h3, h4, h5⟩ := ih (i + 1) _ (by omega) hin2
    have step : ∀ f, hex_to_string_loop buffer_out buffer_in n (f + 1) (2 * i) cur =
        hex_to_string_loop buffer_out buffer_in n f (2 * (i + 1))
          (store8 (store8 cur (buffer_out + 2 * i)
            (hex_digit (load8 s (buffer_in + i) / 16))) (buffer_out + (2 * i + 1))
            (hex_digit (load8 s (buffer_in + i) % 16))) := by
      intro f
      rw [hex_to_string_loop, if_pos hlt, hc1, hc2, e1, e2, hcur, hex_char_high _ hb,
        load8_store8_ne _ _ _ _ hne0, hcur, hex_char_low _ hb]
    refine ⟨s2, ?_, ?_, ?_, ?_, ?_⟩
    · intro fuel hf
      obtain ⟨f, rfl⟩ : ∃ f, fuel = f + 1 := ⟨fuel - 1, by omega⟩
      rw [step, h1 f (by omega)]
    · intro fuel hf
      cases fuel with
      | zero => rfl
      | succ f => rw [step, h2 f (by omega)]
    · intro a ha
      rw [h3 a (by omega)]
      have n1 : a ≠ buffer_out + (2 * i + 1) := by omega
      have n2 : a ≠ buffer_out + 2 * i := by omega
      simp [store8, n1, n2]
    · intro t ht1 ht2
      by_cases hti : t = i
      · subst hti
        rw [load8_congr _ _ _ (h3 (buffer_out + 2 * t) (by omega)),
          load8_congr _ _ _ (h3 (buffer_out + (2 * t + 1)) (by omega)),
          load8_store8_eq, load8_store8_ne _ _ _ _ (by omega), load8_store8_eq,
          Nat.mod_eq_of_lt hhi, Nat.mod_eq_of_lt hlo]
        exact ⟨rfl, rfl⟩
      · exact h4 t (by omega) ht2
    · exact congrArg (fun m : Machine => { m with mem := cur.mem }) h5

theorem hex_to_string_loop_large (buffer_out buffer_in n : Nat) (hn : 128 ≤ n) :
    ∀ fuel counter (s : Machine), counter < 256 →
      hex_to_string_loop buffer_out buffer_in n fuel counter s = none := by
  intro fuel
  induction fuel with
  | zero => intro counter s _; rfl
  | succ fuel ih =>
    intro counter s hc
    rw [hex_to_string_loop, if_pos (by omega)]
    exact ih _ _ (Nat.mod_lt _ (by decide))

theorem hex_to_string_large (buffer_out buffer_in n fuel : Nat) (s : Machine)
    (h1 : 128 ≤ n) (h2 : n ≤ 255) : hex_to_string fuel buffer_out buffer_in n s = none := by
  unfold hex_to_string
  rw [Nat.mod_eq_of_lt (by omega), hex_to_string_loop_large buffer_out buffer_in n h1 fuel 0 s
    (by decide)]

/-- C13 as stated fails.  For `buffer_in_size = 128` the value `2 * 128 + 1` is
not a `uint8_t` value and `hex_to_string` does not return at all, whatever the
bound on its loop.  And for two bytes `0xAB, 0xCD` converted in place
(`buffer_out` and `buffer_in` the same address) the function returns `5` with
`'a'`, `'1'`, `'3'`, `'1'`, `0` in the buffer, not `'a'`, `'b'`, `'c'`, `'d'`,
`0`: the first store overwrites the input byte before its low nibble is
read. -/
theorem hex_to_string_encoding_counterexample :
    (∀ fuel, hex_to_string fuel 1000 0 128 (demo_machine [0xAB, 0xCD]) = none) ∧
    ¬ (2 * 128 + 1 < 256) ∧
    (hex_to_string 3 0 0 2 (demo_machine [0xAB, 0xCD])).map
        (fun r => (r.1, buffer_bytes r.2 0 5)) = some (5, [0x61, 0x31, 0x33, 0x31, 0x00]) ∧
    [0x61, 0x31, 0x33, 0x31, 0x00] ≠
      [hex_digit (0xAB / 16), hex_digit (0xAB % 16), hex_digit (0xCD / 16),
        hex_digit (0xCD % 16), 0] :=
  ⟨fun fuel => hex_to_string_large 1000 0 128 fuel _ (by decide) (by decide), by decide,
    rfl, by decide⟩

/-- C13, amended: hex encoding for `buffer_in_size = n ≤ 127` and buffers placed
so that no input byte is overwritten before it has been read: the address of
`buffer_out[j]` differs from that of `buffer_in[i]` whenever `j ≤ 2 * i` (so in
particular when the buffers do not overlap).  `hex_to_string` returns as soon
as its loop is allowed `n + 1` tests, with the same result for every bound:
the returned value is `2 * n + 1`; `buffer_out[2 * i]` is the lowercase
hexadecimal digit of the high nibble of the byte `buffer_in[i]` held at the
call and `buffer_out[2 * i + 1]` that of its low nibble, for each `i < n`;
`buffer_out[2 * n]` is `0`; the memory outside `buffer_out[0 .. 2 * n]` and
everything but the memory are as at the call. -/
theorem hex_to_string_encoding (buffer_out buffer_in n : Nat) (s : Machine) (hn : n ≤ 127)
    (hsep : ∀ i j, i < n → j ≤ 2 * i → buffer_out + j ≠ buffer_in + i) :
    ∃ s2 : Machine,
      (∀ fuel, n + 1 ≤ fuel →
        hex_to_string fuel buffer_out buffer_in n s = some (2 * n + 1, s2)) ∧
      (∀ fuel r, hex_to_string fuel buffer_out buffer_in n s = some r →
        r = (2 * n + 1, s2)) ∧
      (∀ i, i < n →
        load8 s2 (buffer_out + 2 * i) = hex_digit (load8 s (buffer_in + i) / 16) ∧
        load8 s2 (buffer_out + (2 * i + 1)) = hex_digit (load8 s (buffer_in + i) % 16)) ∧
      load8 s2 (buffer_out + 2 * n) = 0 ∧
      (∀ a, a < buffer_out ∨ buffer_out + 2 * n < a → s2.mem a = s.mem a) ∧
      { s2 with mem := s.mem } = s := by
  obtain ⟨s1, h1, h2, h3, h4, h5⟩ :=
    hex_to_string_loop_small buffer_out buffer_in n s hn hsep n 0 s (by omega)
      (fun _ _ _ => rfl)
  have hmod : n % 256 = n := Nat.mod_eq_of_lt (by omega)
  have hret : (2 * n + 1) % 256 = 2 * n + 1 := Nat.mod_eq_of_lt (by omega)
  have hrun : ∀ fuel, n + 1 ≤ fuel → hex_to_string fuel buffer_out buffer_in n s =
      some (2 * n + 1, store8 s1 (buffer_out + 2 * n) 0) := by
    intro fuel hf
    unfold hex_to_string
    rw [hmod, h1 fuel hf]
    simp only [hret]
  refine ⟨store8 s1 (buffer_out + 2 * n) 0, hrun, ?_, ?_, ?_, ?_, ?_⟩
  · intro fuel r hr
    by_cases hf : n + 1 ≤ fuel
    · rw [hrun fuel hf] at hr
      exact (Option.some.inj hr).symm
    · unfold hex_to_string at hr
      rw [hmod, h2 fuel (by omega)] at hr
      cases hr
  · intro i hi
    rw [load8_store8_ne _ _ _ _ (by omega), load8_store8_ne _ _ _ _ (by omega)]
    exact h4 i (Nat.zero_le _) hi
  · rw [load8_store8_eq]
  · intro a ha
    have n1 : a ≠ buffer_out + 2 * n := by omega
    have e : (store8 s1 (buffer_out + 2 * n) 0).mem a = s1.mem a := by simp [store8, n1]
    rw [e]
    exact h3 a (by omega)
  · exact h5

/-- Witness of the amended C13: the input byte `0xAB` at address `0`, the output
buffer at address `8`: the output is `'a'`, `'b'`, `0` and the returned value
is `3`. -/
theorem hex_to_string_encoding_witness :
    (1 ≤ 127 ∧ ∀ i j, i < 1 → j ≤ 2 * i → 8 + j ≠ 0 + i) ∧
    (∃ s2 : Machine,
      (∀ fuel, 1 + 1 ≤ fuel →
        hex_to_string fuel 8 0 1 (demo_machine [0xAB]) = some (2 * 1 + 1, s2)) ∧
      load8 s2 (8 + 2 * 0) = 0x61 ∧ load8 s2 (8 + (2 * 0 + 1)) = 0x62 ∧
      load8 s2 (8 + 2 * 1) = 0) ∧
    (hex_to_string 2 8 0 1 (demo_machine [0xAB])).map
      (fun r => (r.1, buffer_bytes r.2 8 3, buffer_bytes r.2 0 1)) =
        some (3, [0x61, 0x62, 0], [0xAB]) :=
  ⟨⟨by decide, fun i j _ _ => by omega⟩,
    (hex_to_string_encoding 8 0 1 (demo_machine [0xAB]) (by decide)
        (fun i j _ _ => by omega)).elim
      (fun s2 h => ⟨s2, h.1, (h.2.2.1 0 (by decide)).1, (h.2.2.1 0 (by decide)).2,
        h.2.2.2.1⟩),
    rfl⟩

/-- C14: what the code does where the claim fails.  For every
`buffer_in_size` from `128` to `255`, all buffer pointers and every memory,
`hex_to_string` returns for no bound on its loop: the `uint8_t` variable
`counter` stays below `256`, and `buffer_in_size * 2`, computed in `int`, is at
least `256`. -/
theorem hex_to_string_never_returns (buffer_out buffer_in n fuel : Nat) (s : Machine)
    (h1 : 128 ≤ n) (h2 : n ≤ 255) :
    hex_to_string fuel buffer_out buffer_in n s = none ∧
    (∀ counter, counter % 256 < n * 2) := by
  refine ⟨hex_to_string_large buffer_out buffer_in n fuel s h1 h2, ?_⟩
  intro counter
  have := Nat.mod_lt counter (show 0 < 256 by decide)
  omega

/-- Witness of C14: `buffer_in_size = 255` with a bound of one thousand tests,
the output buffer at address `1000` and the input buffer at address `0`. -/
theorem hex_to_string_never_returns_witness :
    (128 ≤ 255 ∧ 255 ≤ 255) ∧
    (hex_to_string 1000 1000 0 255 (demo_machine [0xAB, 0xCD]) = none ∧
      ∀ counter, counter % 256 < 255 * 2) :=
  ⟨⟨by decide, by decide⟩,
    hex_to_string_never_returns 1000 0 255 1000 (demo_machine [0xAB, 0xCD])
      (by decide) (by decide)⟩

/-! ## Escape pairs, byte by byte -/

theorem buffer_bytes_get (s : Machine) (a n i : Nat) (h : i < n) :
    (buffer_bytes s a n)[i]? = some (load8 s (a + i)) := by
  rw [buffer_bytes_eq_range]
  simp [List.getElem?_map, List.getElem?_range h]

theorem buffer_bytes_get_some (s : Machine) (a n i b : Nat)
    (h : (buffer_bytes s a n)[i]? = some b) : i < n ∧ b = load8 s (a + i) := by
  obtain ⟨hlt, -⟩ := List.getElem?_eq_some.1 h
  rw [buffer_bytes_length] at hlt
  rw [buffer_bytes_get s a n i hlt] at h
  exact ⟨hlt, (Option.some.inj h).symm⟩

theorem getElem?_append_add (l m : List Nat) (k : Nat) :
    (l ++ m)[k + l.length]? = m[k]? := by
  rw [List.getElem?_append_right (by omega)]
  congr 1
  omega

theorem getElem?_append_some (l m : List Nat) (k x : Nat) (h : l[k]? = some x) :
    (l ++ m)[k]? = some x := by
  obtain ⟨hlt, -⟩ := List.getElem?_eq_some.1 h
  rw [List.getElem?_append_left hlt]
  exact h

theorem payload_index_zero (c : Consts) (B : List Nat) : payload_index c B 0 = 0 := by
  simp [payload_index]

theorem payload_index_cons (c : Consts) (h : Nat) (bs : List Nat) (i : Nat) :
    payload_index c (h :: bs) (i + 1) =
      payload_index c bs i + (escape_transform c h).length := by
  rw [payload_index, payload_index, List.take_succ_cons, List.countP_cons,
    escape_transform_length]
  by_cases hres : h = c.SYNC_BYTE ∨ h = c.ESCAPE_BYTE
  · simp only [if_pos hres, decide_eq_true hres, if_true]; omega
  · simp only [if_neg hres, decide_eq_false hres, Bool.false_eq_true, if_false]; omega

theorem payload_at (c : Consts) :
    ∀ (B : List Nat) (i b : Nat), B[i]? = some b →
      ((b = c.SYNC_BYTE ∨ b = c.ESCAPE_BYTE) →
        (escape_payload c B)[payload_index c B i]? = some c.ESCAPE_BYTE ∧
        (escape_payload c B)[payload_index c B i + 1]? = some (b ^^^ 0x20)) ∧
      (¬ (b = c.SYNC_BYTE ∨ b = c.ESCAPE_BYTE) →
        (escape_payload c B)[payload_index c B i]? = some b) := by
  intro B
  induction B with
  | nil => intro i b h; simp at h
  | cons h bs ih =>
    intro i b hb
    cases i with
    | zero =>
      simp only [List.getElem?_cons_zero, Option.some.injEq] at hb
      subst hb
      rw [payload_index_zero]
      constructor
      · intro hres
        simp [escape_payload, escape_transform, hres]
      · intro hres
        simp [escape_payload, escape_transform, hres]
    | succ i =>
      rw [List.getElem?_cons_succ] at hb
      obtain ⟨h1, h2⟩ := ih i b hb
      rw [payload_index_cons, escape_payload]
      constructor
      · intro hres
        obtain ⟨e1, e2⟩ := h1 hres
        constructor
        · rw [getElem?_append_add]; exact e1
        · have : payload_index c bs i + (escape_transform c h).length + 1 =
              payload_index c bs i + 1 + (escape_transform c h).length := by omega
          rw [this, getElem?_append_add]; exact e2
      · intro hres
        rw [getElem?_append_add]; exact h2 hres

theorem payload_origin (c : Consts) :
    ∀ (B : List Nat) (q : Nat), (escape_payload c B)[q]? = some c.ESCAPE_BYTE →
      ∃ i b, B[i]? = some b ∧ (b = c.SYNC_BYTE ∨ b = c.ESCAPE_BYTE) ∧
        (q = payload_index c B i ∨
          (q = payload_index c B i + 1 ∧ b ^^^ 0x20 = c.ESCAPE_BYTE)) := by
  intro B
  induction B with
  | nil => intro q h; simp [escape_payload] at h
  | cons h bs ih =>
    intro q hq
    rw [escape_payload] at hq
    by_cases hlt : q < (escape_transform c h).length
    · rw [List.getElem?_append_left hlt] at hq
      by_cases hres : h = c.SYNC_BYTE ∨ h = c.ESCAPE_BYTE
      · refine ⟨0, h, by simp, hres, ?_⟩
        rw [payload_index_zero]
        simp only [escape_transform, if_pos hres] at hq hlt
        match q, hq, hlt with
        | 0, _, _ => exact Or.inl rfl
        | 1, hq, _ =>
          simp only [List.getElem?_cons_succ, List.getElem?_cons_zero,
            Option.some.injEq] at hq
          exact Or.inr ⟨rfl, hq⟩
        | k + 2, _, hlt => simp at hlt
      · simp only [escape_transform, if_neg hres] at hq hlt
        match q, hq, hlt with
        | 0, hq, _ =>
          simp only [List.getElem?_cons_zero, Option.some.injEq] at hq
          exact absurd (Or.inr hq) hres
        | k + 1, _, hlt => simp at hlt
    · obtain ⟨k, rfl⟩ : ∃ k, q = k + (escape_transform c h).length :=
        ⟨q - (escape_transform c h).length, by omega⟩
      rw [getElem?_append_add] at hq
      obtain ⟨i, b, hb, hres, hpos⟩ := ih k hq
      refine ⟨i + 1, b, by rw [List.getElem?_cons_succ]; exact hb, hres, ?_⟩
      rw [payload_index_cons]
      rcases hpos with e | ⟨e, hop⟩
      · exact Or.inl (by omega)
      · exact Or.inr ⟨by omega, hop⟩

theorem frame_at (c : Consts) (B : List Nat) (i b : Nat) (hb : B[i]? = some b) :
    ((b = c.SYNC_BYTE ∨ b = c.ESCAPE_BYTE) →
      (frame c B)[frame_index c B i]? = some c.ESCAPE_BYTE ∧
      (frame c B)[frame_index c B i + 1]? = some (b ^^^ 0x20) ∧
      frame_index c B i + 2 < (frame c B).length) ∧
    (¬ (b = c.SYNC_BYTE ∨ b = c.ESCAPE_BYTE) →
      (frame c B)[frame_index c B i]? = some b) := by
  obtain ⟨h1, h2⟩ := payload_at c B i b hb
  rw [frame_length]
  simp only [frame, frame_index, List.getElem?_cons_succ]
  constructor
  · intro hres
    obtain ⟨e1, e2⟩ := h1 hres
    obtain ⟨hlt, -⟩ := List.getElem?_eq_some.1 e2
    exact ⟨getElem?_append_some _ _ _ _ e1, getElem?_append_some _ _ _ _ e2, by omega⟩
  · intro hres
    exact getElem?_append_some _ _ _ _ (h2 hres)

theorem frame_origin (c : Consts) (B : List Nat) (q : Nat) (h0 : 0 < q)
    (h1 : q + 1 < (frame c B).length) (h : (frame c B)[q]? = some c.ESCAPE_BYTE) :
    ∃ i b, B[i]? = some b ∧ (b = c.SYNC_BYTE ∨ b = c.ESCAPE_BYTE) ∧
      (q = frame_index c B i ∨ (q = frame_index c B i + 1 ∧ b ^^^ 0x20 = c.ESCAPE_BYTE)) := by
  rw [frame_length] at h1
  obtain ⟨j, rfl⟩ : ∃ j, q = j + 1 := ⟨q - 1, by omega⟩
  simp only [frame, List.getElem?_cons_succ] at h
  rw [List.getElem?_append_left (by omega)] at h
  obtain ⟨i, b, hb, hres, hpos⟩ := payload_origin c B j h
  refine ⟨i, b, hb, hres, ?_⟩
  simp only [frame_index]
  rcases hpos with e | ⟨e, hop⟩
  · exact Or.inl (by omega)
  · exact Or.inr ⟨by omega, hop⟩

/-- C4: escape bijection.  Whenever `uart_write_escaped` returns, for every
payload byte `b = buffer[i]`, at every position `i`: if `b` is `SYNC` or
`ESCAPE`, the frame holds at the index that stands for `b` the pair `ESCAPE`,
`X` with `X = b xor 0x20`, the operand still before the closing delimiter; if
not, it holds `b` itself there; the frame as a whole is `SYNC`, these pairs and
bytes in buffer order, `SYNC`.  `X xor 0x20` is `b` again and no other byte
has the operand `X`; if `SYNC ≠ ESCAPE` the two reserved bytes have different
operands.  Conversely every byte of the frame strictly between the delimiters
that equals `ESCAPE` is the first byte of the pair of some reserved payload
byte, followed by that byte's operand, unless it is itself the operand of a
payload byte `SYNC`, which requires `SYNC xor 0x20 = ESCAPE`; so under the
invariant of the constants, `SYNC xor 0x20 ≠ ESCAPE`, every `ESCAPE` between the
delimiters is followed by the operand of the payload byte it stands for.  A
one-byte payload that is reserved is emitted as `SYNC, ESCAPE, b xor 0x20,
SYNC`.  The routine returns once the bound on its loops is large enough. -/
theorem uart_write_escaped_escape_pairs (c : Consts) (buffer length : Nat) (s : Machine)
    (hlen : length < 65536) (hsync : c.SYNC_BYTE < 256) (hesc : c.ESCAPE_BYTE < 256)
    (hr : TxReady c s) :
    (∃ f0, ∀ fuel, f0 ≤ fuel → ∃ s', uart_write_escaped c fuel buffer length s = some s') ∧
    (∀ fuel s', uart_write_escaped c fuel buffer length s = some s' →
      (∀ i, i < length →
        ((load8 s (buffer + i) = c.SYNC_BYTE ∨ load8 s (buffer + i) = c.ESCAPE_BYTE) →
          (s'.UCA0TXBUF.drop s.UCA0TXBUF.length)[
              frame_index c (buffer_bytes s buffer length) i]? = some c.ESCAPE_BYTE ∧
          (s'.UCA0TXBUF.drop s.UCA0TXBUF.length)[
              frame_index c (buffer_bytes s buffer length) i + 1]? =
            some (load8 s (buffer + i) ^^^ 0x20) ∧
          frame_index c (buffer_bytes s buffer length) i + 2 <
            (s'.UCA0TXBUF.drop s.UCA0TXBUF.length).length) ∧
        (¬ (load8 s (buffer + i) = c.SYNC_BYTE ∨ load8 s (buffer + i) = c.ESCAPE_BYTE) →
          (s'.UCA0TXBUF.drop s.UCA0TXBUF.length)[
              frame_index c (buffer_bytes s buffer length) i]? =
            some (load8 s (buffer + i)))) ∧
      (∀ q, 0 < q → q + 1 < (s'.UCA0TXBUF.drop s.UCA0TXBUF.length).length →
        (s'.UCA0TXBUF.drop s.UCA0TXBUF.length)[q]? = some c.ESCAPE_BYTE →
        ∃ i, i < length ∧
          (load8 s (buffer + i) = c.SYNC_BYTE ∨ load8 s (buffer + i) = c.ESCAPE_BYTE) ∧
          ((q = frame_index c (buffer_bytes s buffer length) i ∧
              (s'.UCA0TXBUF.drop s.UCA0TXBUF.length)[q + 1]? =
                some (load8 s (buffer + i) ^^^ 0x20) ∧
              q + 2 < (s'.UCA0TXBUF.drop s.UCA0TXBUF.length).length) ∨
            (q = frame_index c (buffer_bytes s buffer length) i + 1 ∧
              load8 s (buffer + i) = c.SYNC_BYTE ∧
              c.SYNC_BYTE ^^^ 0x20 = c.ESCAPE_BYTE))) ∧
      (c.SYNC_BYTE ^^^ 0x20 ≠ c.ESCAPE_BYTE →
        ∀ q, 0 < q → q + 1 < (s'.UCA0TXBUF.drop s.UCA0TXBUF.length).length →
          (s'.UCA0TXBUF.drop s.UCA0TXBUF.length)[q]? = some c.ESCAPE_BYTE →
          ∃ i, i < length ∧
            (load8 s (buffer + i) = c.SYNC_BYTE ∨ load8 s (buffer + i) = c.ESCAPE_BYTE) ∧
            q = frame_index c (buffer_bytes s buffer length) i ∧
            (s'.UCA0TXBUF.drop s.UCA0TXBUF.length)[q + 1]? =
              some (load8 s (buffer + i) ^^^ 0x20) ∧
            q + 2 < (s'.UCA0TXBUF.drop s.UCA0TXBUF.length).length) ∧
      s'.UCA0TXBUF.drop s.UCA0TXBUF.length =
        [c.SYNC_BYTE] ++ ((buffer_bytes s buffer length).map (fun b =>
          if b = c.SYNC_BYTE ∨ b = c.ESCAPE_BYTE then [c.ESCAPE_BYTE, b ^^^ 0x20]
          else [b])).flatten ++ [c.SYNC_BYTE]) ∧
    (∀ b : Nat, (b ^^^ 0x20) ^^^ 0x20 = b ∧ ∀ b2 : Nat, b2 ^^^ 0x20 = b ^^^ 0x20 → b2 = b) ∧
    (c.SYNC_BYTE ≠ c.ESCAPE_BYTE → c.SYNC_BYTE ^^^ 0x20 ≠ c.ESCAPE_BYTE ^^^ 0x20) ∧
    ((load8 s buffer = c.SYNC_BYTE ∨ load8 s buffer = c.ESCAPE_BYTE) →
      ∀ fuel s', uart_write_escaped c fuel buffer 1 s = some s' →
        s'.UCA0TXBUF.drop s.UCA0TXBUF.length =
          [c.SYNC_BYTE, c.ESCAPE_BYTE, load8 s buffer ^^^ 0x20, c.SYNC_BYTE]) := by
  have hinj : ∀ b b2 : Nat, b2 ^^^ 0x20 = b ^^^ 0x20 → b2 = b := by
    intro b b2 h
    rw [← xor32_xor32 b2, h, xor32_xor32]
  obtain ⟨h1, h2⟩ := uart_write_escaped_emits c buffer length s hlen hsync hesc hr
  have hconv : ∀ q, 0 < q → q + 1 < (frame c (buffer_bytes s buffer length)).length →
      (frame c (buffer_bytes s buffer length))[q]? = some c.ESCAPE_BYTE →
      ∃ i, i < length ∧
        (load8 s (buffer + i) = c.SYNC_BYTE ∨ load8 s (buffer + i) = c.ESCAPE_BYTE) ∧
        ((q = frame_index c (buffer_bytes s buffer length) i ∧
            (frame c (buffer_bytes s buffer length))[q + 1]? =
              some (load8 s (buffer + i) ^^^ 0x20) ∧
            q + 2 < (frame c (buffer_bytes s buffer length)).length) ∨
          (q = frame_index c (buffer_bytes s buffer length) i + 1 ∧
            load8 s (buffer + i) = c.SYNC_BYTE ∧
            c.SYNC_BYTE ^^^ 0x20 = c.ESCAPE_BYTE)) := by
    intro q h0 hq1 hq
    obtain ⟨i, b, hb, hres, hpos⟩ := frame_origin c _ q h0 hq1 hq
    obtain ⟨hi, rfl⟩ := buffer_bytes_get_some s buffer length i b hb
    refine ⟨i, hi, hres, ?_⟩
    rcases hpos with e | ⟨e, hop⟩
    · obtain ⟨-, e2, e3⟩ := (frame_at c _ i _ hb).1 hres
      exact Or.inl ⟨e, by rw [e]; exact e2, by rw [e]; exact e3⟩
    · refine Or.inr ⟨e, ?_⟩
      rcases hres with hs | he
      · exact ⟨hs, by rw [← hs]; exact hop⟩
      · rw [he] at hop
        exact absurd hop (xor32_ne _)
  refine ⟨h1, ?_, fun b => ⟨xor32_xor32 b, hinj b⟩, fun hne h => hne (hinj _ _ h), ?_⟩
  · intro fuel s' h
    rw [h2 fuel s' h]
    refine ⟨?_, hconv, ?_, ?_⟩
    · intro i hi
      exact frame_at c _ i _ (buffer_bytes_get s buffer length i hi)
    · intro hx q h0 hq1 hq
      obtain ⟨i, hi, hres, hpos⟩ := hconv q h0 hq1 hq
      rcases hpos with ⟨e, e2, e3⟩ | ⟨-, -, e⟩
      · exact ⟨i, hi, hres, e, e2, e3⟩
      · exact absurd e hx
    · have e : (fun b => if b = c.SYNC_BYTE ∨ b = c.ESCAPE_BYTE
          then [c.ESCAPE_BYTE, b ^^^ 0x20] else [b]) = escape_transform c := by
        funext b; rfl
      rw [e, ← escape_payload_eq_flatten]
      simp [frame]
  · intro hres fuel s' h
    rw [(uart_write_escaped_emits c buffer 1 s (by decide) hsync hesc hr).2 fuel s' h]
    simp [frame, buffer_bytes, escape_payload, escape_transform, hres]

/-- Witness of C4: the payload `0x41, 0x7E, 0x7D` with `SYNC = 0x7E`,
`ESCAPE = 0x7D`: the frame is `7E 41 7D 5E 7D 5D 7E`, the pair of the payload
byte at position `1` sits at the indices `2` and `3`, that of the payload byte
at position `2` at the indices `4` and `5`. -/
theorem uart_write_escaped_escape_pairs_witness :
    (3 < 65536 ∧ demo_consts.SYNC_BYTE < 256 ∧ demo_consts.ESCAPE_BYTE < 256 ∧
      TxReady demo_consts (demo_machine [0x41, 0x7E, 0x7D])) ∧
    (uart_write_escaped demo_consts 4 0 3
        (demo_machine [0x41, 0x7E, 0x7D])).map Machine.UCA0TXBUF =
      some [0x7E, 0x41, 0x7D, 0x5E, 0x7D, 0x5D, 0x7E] ∧
    (frame_index demo_consts [0x41, 0x7E, 0x7D] 0 = 1 ∧
      frame_index demo_consts [0x41, 0x7E, 0x7D] 1 = 2 ∧
      frame_index demo_consts [0x41, 0x7E, 0x7D] 2 = 4) ∧
    (∀ fuel s', uart_write_escaped demo_consts fuel 0 3
        (demo_machine [0x41, 0x7E, 0x7D]) = some s' →
      ((s'.UCA0TXBUF.drop 0)[2]? = some 0x7D ∧ (s'.UCA0TXBUF.drop 0)[2 + 1]? = some 0x5E) ∧
      ((s'.UCA0TXBUF.drop 0)[4]? = some 0x7D ∧ (s'.UCA0TXBUF.drop 0)[4 + 1]? = some 0x5D) ∧
      (s'.UCA0TXBUF.drop 0)[1]? = some 0x41) :=
  ⟨⟨by decide, by decide, by decide, demo_machine_ready _⟩, rfl,
    ⟨by decide, by decide, by decide⟩,
    fun fuel s' h =>
      ⟨⟨((((uart_write_escaped_escape_pairs demo_consts 0 3
              (demo_machine [0x41, 0x7E, 0x7D]) (by decide) (by decide) (by decide)
              (demo_machine_ready _)).2.1 fuel s' h).1 1 (by decide)).1 (by decide)).1,
          ((((uart_write_escaped_escape_pairs demo_consts 0 3
              (demo_machine [0x41, 0x7E, 0x7D]) (by decide) (by decide) (by decide)
              (demo_machine_ready _)).2.1 fuel s' h).1 1 (by decide)).1 (by decide)).2.1⟩,
        ⟨((((uart_write_escaped_escape_pairs demo_consts 0 3
              (demo_machine [0x41, 0x7E, 0x7D]) (by decide) (by decide) (by decide)
              (demo_machine_ready _)).2.1 fuel s' h).1 2 (by decide)).1 (by decide)).1,
          ((((uart_write_escaped_escape_pairs demo_consts 0 3
              (demo_machine [0x41, 0x7E, 0x7D]) (by decide) (by decide) (by decide)
              (demo_machine_ready _)).2.1 fuel s' h).1 2 (by decide)).1 (by decide)).2.1⟩,
        ((((uart_write_escaped_escape_pairs demo_consts 0 3
              (demo_machine [0x41, 0x7E, 0x7D]) (by decide) (by decide) (by decide)
              (demo_machine_ready _)).2.1 fuel s' h).1 0 (by decide)).2 (by decide))⟩⟩

end Uart
